import Mathlib

/-!
Shallow embedding of the filter design engine and the realtime cascade
processor of the signal-filter-visual repository.

The design half follows `src/audio/analogPrototypes.ts` and
`src/audio/filterDesign.ts`; the processor half follows the
`FilterProcessor` audio-worklet class embedded in `src/audio/audioEngine.ts`.
JavaScript 64-bit floats are modelled as exact real numbers; the claims
under study are statements of exact real arithmetic.
-/

namespace SignalFilter

/-- Complex value `(re, im)`, mirroring `Complex` in `src/types.ts`. -/
structure Complex where
  re : ℝ
  im : ℝ

/-- Filter family tag, mirroring the `FilterFamily` union in `src/types.ts`. -/
inductive FilterFamily where
  | butterworth
  | chebyshev
  | bessel
deriving DecidableEq

/-- Response type tag, mirroring the `"lowpass" | "highpass"` union. -/
inductive ResponseType where
  | lowpass
  | highpass
deriving DecidableEq

/-- Mirror of `FilterParams` in `src/types.ts`. -/
structure FilterParams where
  family : FilterFamily
  type : ResponseType
  order : ℕ
  cutoffFrequency : ℝ
  rippleDb : ℝ

/-- Mirror of `butterworthPoles` in `src/audio/analogPrototypes.ts`. -/
noncomputable def butterworthPoles (order : ℕ) : List Complex :=
  (List.range order).map fun (k : ℕ) =>
    let angle := Real.pi * (2 * (k : ℝ) + (order : ℝ) + 1) / (2 * (order : ℝ))
    ⟨Real.cos angle, Real.sin angle⟩

/-- Return type of `chebyshevPoles`. -/
structure ChebyshevResult where
  poles : List Complex
  passbandToDb3Scale : ℝ

/-- JavaScript `Math.acosh`: the inverse hyperbolic cosine,
`log (x + sqrt (x^2 - 1))`. -/
noncomputable def acosh (x : ℝ) : ℝ := Real.log (x + Real.sqrt (x ^ 2 - 1))

/-- Mirror of `chebyshevPoles` in `src/audio/analogPrototypes.ts`. -/
noncomputable def chebyshevPoles (order : ℕ) (rippleDb : ℝ) : ChebyshevResult :=
  let eps := Real.sqrt ((10 : ℝ) ^ (rippleDb / 10) - 1)
  let mu := (1 / (order : ℝ)) * Real.arsinh (1 / eps)
  let poles := (List.range order).map fun (k : ℕ) =>
    let theta := Real.pi * (2 * (k : ℝ) + 1) / (2 * (order : ℝ))
    Complex.mk (-(Real.sinh mu) * Real.sin theta) (Real.cosh mu * Real.cos theta)
  let scale := Real.cosh ((1 / (order : ℝ)) * acosh (1 / eps))
  ⟨poles, scale⟩

/-- Raw (unscaled) order-2 entry of the Bessel lookup table `DATA`. -/
noncomputable def besselOrder2Raw : List Complex :=
  [⟨-1.1016, 0.6368⟩, ⟨-1.1016, -0.6368⟩]

/-- Lookup in the Bessel table `DATA` of `src/audio/analogPrototypes.ts`:
the tabulated poles together with their 3 dB angular frequency
`omega3dB`, for orders 1 through 8; `none` for any other order. -/
noncomputable def besselData (order : ℕ) : Option (List Complex × ℝ) :=
  match order with
  | 1 => some ([⟨-1.0, 0⟩], 1.0)
  | 2 => some (besselOrder2Raw, 1.3617)
  | 3 => some ([⟨-1.0474, 0.9992⟩, ⟨-1.0474, -0.9992⟩, ⟨-1.3227, 0⟩], 1.7557)
  | 4 => some ([⟨-0.9953, 1.2571⟩, ⟨-0.9953, -1.2571⟩,
                ⟨-1.3707, 0.4103⟩, ⟨-1.3707, -0.4103⟩], 2.1139)
  | 5 => some ([⟨-0.9576, 1.4711⟩, ⟨-0.9576, -1.4711⟩,
                ⟨-1.381, 0.7179⟩, ⟨-1.381, -0.7179⟩, ⟨-1.3851, 0⟩], 2.4274)
  | 6 => some ([⟨-0.9318, 1.6617⟩, ⟨-0.9318, -1.6617⟩,
                ⟨-1.3226, 0.9715⟩, ⟨-1.3226, -0.9715⟩,
                ⟨-1.3836, 0.1073⟩, ⟨-1.3836, -0.1073⟩], 2.7034)
  | 7 => some ([⟨-0.9104, 1.8375⟩, ⟨-0.9104, -1.8375⟩,
                ⟨-1.2629, 1.1923⟩, ⟨-1.2629, -1.1923⟩,
                ⟨-1.378, 0.3213⟩, ⟨-1.378, -0.3213⟩, ⟨-1.3797, 0⟩], 2.9517)
  | 8 => some ([⟨-0.8955, 2.0044⟩, ⟨-0.8955, -2.0044⟩,
                ⟨-1.2062, 1.3926⟩, ⟨-1.2062, -1.3926⟩,
                ⟨-1.3683, 0.5287⟩, ⟨-1.3683, -0.5287⟩,
                ⟨-1.378, 0.0569⟩, ⟨-1.378, -0.0569⟩], 3.1796)
  | _ => none

/-- Mirror of `besselPoles` in `src/audio/analogPrototypes.ts`: tabulated
poles scaled by `1 / omega3dB`; for an order missing from the table the
function returns `DATA[2]!.poles` (the raw order-2 entry, unscaled). -/
noncomputable def besselPoles (order : ℕ) : List Complex :=
  match besselData order with
  | none => besselOrder2Raw
  | some (poles, scale) => poles.map fun p => ⟨p.re / scale, p.im / scale⟩

/-- Mirror of `bilinear` in `src/audio/filterDesign.ts`:
`z = (1 + s*T/2) / (1 - s*T/2)` with `T = 1/sampleRate`, computed by
explicit complex division. -/
noncomputable def bilinear (s : Complex) (sampleRate : ℝ) : Complex :=
  let T := 1 / sampleRate
  let halfT := T / 2
  let nRe := 1 + s.re * halfT
  let nIm := s.im * halfT
  let dRe := 1 - s.re * halfT
  let dIm := -(s.im * halfT)
  let dMag2 := dRe * dRe + dIm * dIm
  ⟨(nRe * dRe + nIm * dIm) / dMag2, (nIm * dRe - nRe * dIm) / dMag2⟩

/-- Mirror of `getAnalogPoles` in `src/audio/filterDesign.ts` (the
`default` branch of the `switch` is unreachable since `FilterFamily`
is exhausted by the three cases). -/
noncomputable def getAnalogPoles (params : FilterParams) : List Complex :=
  match params.family with
  | .butterworth => butterworthPoles params.order
  | .chebyshev => (chebyshevPoles params.order params.rippleDb).poles
  | .bessel => besselPoles params.order

/-- One analog SOS grouping: a single (near-real or unmatched) pole, or a
matched conjugate pair — mirror of the `AnalogSOS` interface. -/
inductive AnalogSOS where
  | single (p : Complex)
  | pair (p q : Complex)

/-- Pole list held by an `AnalogSOS` grouping. -/
def AnalogSOS.poles : AnalogSOS → List Complex
  | .single p => [p]
  | .pair p q => [p, q]

section Pairing

open Classical

/-- Inner search loop of `pairConjugatePoles`: scan forward for the first
not-yet-used pole that is the conjugate of `p` (real parts within `1e-10`,
imaginary parts summing to within `1e-10`). Marking the found pole as
used is modelled by returning the list with that pole removed. -/
noncomputable def findConj (p : Complex) : List Complex → Option (Complex × List Complex)
  | [] => none
  | q :: qs =>
    if |p.re - q.re| < 1e-10 ∧ |p.im + q.im| < 1e-10 then
      some (q, qs)
    else
      match findConj p qs with
      | some (r, rest) => some (r, q :: rest)
      | none => none

theorem findConj_length {p : Complex} :
    ∀ {l : List Complex} {q rest}, findConj p l = some (q, rest) →
      rest.length + 1 = l.length := by
  intro l
  induction l with
  | nil => intro q rest h; simp [findConj] at h
  | cons a as ih =>
    intro q rest h
    rw [findConj] at h
    split at h
    · simp only [Option.some.injEq, Prod.mk.injEq] at h
      simp [← h.2]
    · cases hrec : findConj p as with
      | none => rw [hrec] at h; simp at h
      | some val =>
        obtain ⟨r, rest0⟩ := val
        rw [hrec] at h
        simp only [Option.some.injEq, Prod.mk.injEq] at h
        obtain ⟨hq, hrest⟩ := h
        have := ih hrec
        simp [← hrest, List.length_cons, ← this]

theorem findConj_mem {p : Complex} :
    ∀ {l : List Complex} {q rest}, findConj p l = some (q, rest) → q ∈ l := by
  intro l
  induction l with
  | nil => intro q rest h; simp [findConj] at h
  | cons a as ih =>
    intro q rest h
    rw [findConj] at h
    split at h
    · simp only [Option.some.injEq, Prod.mk.injEq] at h
      simp [h.1]
    · cases hrec : findConj p as with
      | none => rw [hrec] at h; simp at h
      | some val =>
        obtain ⟨r, rest0⟩ := val
        rw [hrec] at h
        simp only [Option.some.injEq, Prod.mk.injEq] at h
        exact List.mem_cons_of_mem a (h.1 ▸ ih hrec)

theorem findConj_cond {p : Complex} :
    ∀ {l : List Complex} {q rest}, findConj p l = some (q, rest) →
      |p.re - q.re| < 1e-10 ∧ |p.im + q.im| < 1e-10 := by
  intro l
  induction l with
  | nil => intro q rest h; simp [findConj] at h
  | cons a as ih =>
    intro q rest h
    rw [findConj] at h
    split at h
    · simp only [Option.some.injEq, Prod.mk.injEq] at h
      rename_i hcond
      exact h.1 ▸ hcond
    · cases hrec : findConj p as with
      | none => rw [hrec] at h; simp at h
      | some val =>
        obtain ⟨r, rest0⟩ := val
        rw [hrec] at h
        simp only [Option.some.injEq, Prod.mk.injEq] at h
        exact h.1 ▸ ih hrec

theorem findConj_subset {p : Complex} :
    ∀ {l : List Complex} {q rest}, findConj p l = some (q, rest) →
      ∀ x ∈ rest, x ∈ l := by
  intro l
  induction l with
  | nil => intro q rest h; simp [findConj] at h
  | cons a as ih =>
    intro q rest h
    rw [findConj] at h
    split at h
    · simp only [Option.some.injEq, Prod.mk.injEq] at h
      intro x hx
      exact List.mem_cons_of_mem a (h.2 ▸ hx)
    · cases hrec : findConj p as with
      | none => rw [hrec] at h; simp at h
      | some val =>
        obtain ⟨r, rest0⟩ := val
        rw [hrec] at h
        simp only [Option.some.injEq, Prod.mk.injEq] at h
        intro x hx
        rw [← h.2] at hx
        rcases List.mem_cons.mp hx with hxa | hx0
        · simp [hxa]
        · exact List.mem_cons_of_mem a (ih hrec x hx0)

/-- Mirror of `pairConjugatePoles` in `src/audio/filterDesign.ts`: scan the
poles in order; a pole with `|im| < 1e-10` becomes a one-pole section with
its imaginary part zeroed; otherwise the first forward conjugate match
yields a two-pole section (both poles consumed); an unmatched complex pole
falls back to a standalone one-pole section. The `used` flags of the source are
modelled by removing a matched partner from the remaining list. -/
noncomputable def pairConjugatePoles (poles : List Complex) : List AnalogSOS :=
  match poles with
  | [] => []
  | p :: rest =>
    if |p.im| < 1e-10 then
      .single ⟨p.re, 0⟩ :: pairConjugatePoles rest
    else
      match hfc : findConj p rest with
      | some (q, rest2) => .pair p q :: pairConjugatePoles rest2
      | none => .single p :: pairConjugatePoles rest
termination_by poles.length
decreasing_by
  · simp [List.length_cons]
  · have := findConj_length hfc
    simp [List.length_cons]
    omega
  · simp [List.length_cons]

end Pairing

/-- Mirror of `SOSSection` in `src/types.ts`: numerator `b = [b0, b1, b2]`
and denominator `a = [a0, a1, a2]` coefficient arrays (the source always
stores `a0 = 1`). -/
structure SOSSection where
  b0 : ℝ
  b1 : ℝ
  b2 : ℝ
  a0 : ℝ
  a1 : ℝ
  a2 : ℝ

/-- Per-section body of the `for (const section of analogSections)` loop in
`buildSOS`: build the digital SOS coefficients for one analog grouping and
return the section together with the z-plane poles and zeros it pushes. -/
noncomputable def sosOfSection (zeroZ evalAt omegaA sampleRate : ℝ) :
    AnalogSOS → SOSSection × List Complex × List Complex
  | .single p =>
    let sScaled : Complex := ⟨omegaA * p.re, 0⟩
    let zp := bilinear sScaled sampleRate
    let a1 := -zp.re
    let b1Raw := -zeroZ
    let numAtEval := 1 + b1Raw * evalAt
    let denAtEval := 1 + a1 * evalAt
    let g := denAtEval / numAtEval
    (⟨g, g * b1Raw, 0, 1, a1, 0⟩, [zp], [⟨zeroZ, 0⟩])
  | .pair p q =>
    let s1 : Complex := ⟨omegaA * p.re, omegaA * p.im⟩
    let s2 : Complex := ⟨omegaA * q.re, omegaA * q.im⟩
    let zp1 := bilinear s1 sampleRate
    let zp2 := bilinear s2 sampleRate
    let a1 := -(zp1.re + zp2.re)
    let a2 := zp1.re * zp2.re - zp1.im * zp2.im
    let b1Raw := -2 * zeroZ
    let b2Raw := zeroZ * zeroZ
    let numAtEval := 1 + b1Raw * evalAt + b2Raw * evalAt * evalAt
    let denAtEval := 1 + a1 * evalAt + a2 * evalAt * evalAt
    let g := denAtEval / numAtEval
    (⟨g, g * b1Raw, g * b2Raw, 1, a1, a2⟩, [zp1, zp2], [⟨zeroZ, 0⟩, ⟨zeroZ, 0⟩])

/-- The digital zero location `zeroZ` chosen by `buildSOS`:
`z = -1` for lowpass, `z = +1` for highpass. -/
noncomputable def zeroLocation (t : ResponseType) : ℝ :=
  if t = ResponseType.lowpass then -1 else 1

/-- The gain-normalization reference point `evalAt` chosen by `buildSOS`:
`z = 1` (DC) for lowpass, `z = -1` (Nyquist) for highpass. -/
noncomputable def evalLocation (t : ResponseType) : ℝ :=
  if t = ResponseType.lowpass then 1 else -1

/-- Prewarped analog cutoff `omegaA = 2 * fs * tan(omegaD / 2)` with
`omegaD = 2 * pi * fc / fs`, as computed at the top of `buildSOS`. -/
noncomputable def prewarp (cutoffFrequency sampleRate : ℝ) : ℝ :=
  let omegaD := 2 * Real.pi * cutoffFrequency / sampleRate
  2 * sampleRate * Real.tan (omegaD / 2)

/-- Mirror of `buildSOS` in `src/audio/filterDesign.ts`: pair the analog
poles, then push one SOS section (with its z-plane poles and zeros) per
analog grouping. Returns `(sos, zPoles, zZeros)`. -/
noncomputable def buildSOS (params : FilterParams) (sampleRate : ℝ)
    (analogPoles : List Complex) :
    List SOSSection × List Complex × List Complex :=
  let omegaA := prewarp params.cutoffFrequency sampleRate
  let zeroZ := zeroLocation params.type
  let evalAt := evalLocation params.type
  let analogSections := pairConjugatePoles analogPoles
  let parts := analogSections.map (sosOfSection zeroZ evalAt omegaA sampleRate)
  (parts.map (·.1), (parts.map (·.2.1)).flatten, (parts.map (·.2.2)).flatten)

/-- JavaScript `Math.atan2(y, x)`. -/
noncomputable def atan2 (y x : ℝ) : ℝ :=
  if 0 < x then Real.arctan (y / x)
  else if x < 0 then
    (if 0 ≤ y then Real.arctan (y / x) + Real.pi else Real.arctan (y / x) - Real.pi)
  else
    (if 0 < y then Real.pi / 2 else if y < 0 then -(Real.pi / 2) else 0)

/-- Complex response of one SOS section at `z = e^(-i*omega)`, by the direct
trigonometric expansion used in the body of `evalSOS`. -/
noncomputable def sectionResponse (s : SOSSection) (omega : ℝ) : Complex :=
  let cw := Real.cos omega
  let sw := Real.sin omega
  let c2w := Real.cos (2 * omega)
  let s2w := Real.sin (2 * omega)
  let nRe := s.b0 + s.b1 * cw + s.b2 * c2w
  let nIm := -(s.b1 * sw) - s.b2 * s2w
  let dRe := 1 + s.a1 * cw + s.a2 * c2w
  let dIm := -(s.a1 * sw) - s.a2 * s2w
  let dMag2 := dRe * dRe + dIm * dIm
  ⟨(nRe * dRe + nIm * dIm) / dMag2, (nIm * dRe - nRe * dIm) / dMag2⟩

/-- Total cascade response at `z = e^(-i*omega)`: product over the sections,
accumulated by complex multiplication starting from `1 + 0i`. -/
noncomputable def cascadeResponse (sos : List SOSSection) (omega : ℝ) : Complex :=
  sos.foldl (fun total s =>
    let h := sectionResponse s omega
    ⟨total.re * h.re - total.im * h.im, total.re * h.im + total.im * h.re⟩) ⟨1, 0⟩

/-- Return type of `evalSOS`. -/
structure FreqResponse where
  frequencies : List ℝ
  magnitudeDb : List ℝ
  phase : List ℝ

/-- Mirror of `evalSOS` in `src/audio/filterDesign.ts`: for each of
`numPoints` grid indices `i`, frequency `f = (i / numPoints) * nyquist`,
magnitude in dB floored at `1e-12`, and phase. -/
noncomputable def evalSOS (sos : List SOSSection) (sampleRate : ℝ)
    (numPoints : ℕ) : FreqResponse :=
  let nyquist := sampleRate / 2
  let freqOf := fun (i : ℕ) => ((i : ℝ) / (numPoints : ℝ)) * nyquist
  let omegaOf := fun (i : ℕ) => 2 * Real.pi * freqOf i / sampleRate
  { frequencies := (List.range numPoints).map freqOf
    magnitudeDb := (List.range numPoints).map fun i =>
      let total := cascadeResponse sos (omegaOf i)
      let mag := Real.sqrt (total.re * total.re + total.im * total.im)
      20 * Real.logb 10 (max mag 1e-12)
    phase := (List.range numPoints).map fun i =>
      let total := cascadeResponse sos (omegaOf i)
      atan2 total.im total.re }

/-- Mirror of `FilterDesignResult` in `src/types.ts`. -/
structure FilterDesignResult where
  poles : List Complex
  zeros : List Complex
  sos : List SOSSection
  frequencies : List ℝ
  magnitudeDb : List ℝ
  phase : List ℝ

/-- Mirror of `designFilter` in `src/audio/filterDesign.ts`. -/
noncomputable def designFilter (params : FilterParams) (sampleRate : ℝ)
    (numFreqPoints : ℕ) : FilterDesignResult :=
  let analogPoles := getAnalogPoles params
  let built := buildSOS params sampleRate analogPoles
  let resp := evalSOS built.1 sampleRate numFreqPoints
  { poles := built.2.1
    zeros := built.2.2
    sos := built.1
    frequencies := resp.frequencies
    magnitudeDb := resp.magnitudeDb
    phase := resp.phase }

/-- Five current coefficients of one processor section, as extracted by
`_updateCoefficients` (`b0, b1, b2, a1, a2`). -/
structure Coeffs where
  b0 : ℝ
  b1 : ℝ
  b2 : ℝ
  a1 : ℝ
  a2 : ℝ

/-- Runtime state of one section of the cascade: current coefficients plus
the delay memory `x1, x2, y1, y2`. -/
structure SectionState where
  b0 : ℝ
  b1 : ℝ
  b2 : ℝ
  a1 : ℝ
  a2 : ℝ
  x1 : ℝ
  x2 : ℝ
  y1 : ℝ
  y2 : ℝ

/-- State of the `FilterProcessor` audio-worklet class (the `oldCoeffs` and
`newCoeffs` fields are `null` before the first same-count update; they are
modelled as lists that are only read while `interpolating` is set). -/
structure FilterProcessor where
  sections : List SectionState
  oldCoeffs : List Coeffs
  newCoeffs : List Coeffs
  interpPos : ℕ
  interpolating : Bool

/-- The interpolation window constant `this.interpFrames = 256`. -/
def interpFrames : ℕ := 256

/-- Coefficient extraction applied to each incoming message section
(`b0: s.b[0], b1: s.b[1], b2: s.b[2] ?? 0, a1: s.a[1] ?? 0, a2: s.a[2] ?? 0`;
the `?? 0` defaults never fire since `SOSSection` always carries six
entries). -/
def coeffsOfSOS (s : SOSSection) : Coeffs :=
  ⟨s.b0, s.b1, s.b2, s.a1, s.a2⟩

/-- The five coefficient fields of a runtime section. -/
def coeffsOfSection (s : SectionState) : Coeffs :=
  ⟨s.b0, s.b1, s.b2, s.a1, s.a2⟩

/-- A freshly initialized section: incoming coefficients and zeroed delay
memory, as built in the reset branch of `_updateCoefficients`. -/
def freshSection (c : Coeffs) : SectionState :=
  ⟨c.b0, c.b1, c.b2, c.a1, c.a2, 0, 0, 0, 0⟩

/-- Mirror of `FilterProcessor._updateCoefficients`: a message whose section
count differs from the current one replaces the sections with freshly
zeroed ones and clears the interpolating flag; otherwise the current
coefficients are latched as `oldCoeffs`, the incoming ones as `newCoeffs`,
and a new interpolation starts at position 0. -/
def updateCoefficients (sos : List SOSSection) (st : FilterProcessor) :
    FilterProcessor :=
  let incoming := sos.map coeffsOfSOS
  if incoming.length ≠ st.sections.length then
    { st with sections := incoming.map freshSection, interpolating := false }
  else
    { st with
        oldCoeffs := st.sections.map coeffsOfSection
        newCoeffs := incoming
        interpPos := 0
        interpolating := true }

/-- Set the five coefficients of a section to
`old + alpha * (new - old)`, as in the interpolation loop of `process`. -/
def applyInterp (alpha : ℝ) (sec : SectionState) (o n : Coeffs) :
    SectionState :=
  { sec with
      b0 := o.b0 + alpha * (n.b0 - o.b0)
      b1 := o.b1 + alpha * (n.b1 - o.b1)
      b2 := o.b2 + alpha * (n.b2 - o.b2)
      a1 := o.a1 + alpha * (n.a1 - o.a1)
      a2 := o.a2 + alpha * (n.a2 - o.a2) }

/-- Snap the five coefficients of a section to the target values, as in the
`interpPos >= interpFrames` branch of `process`. -/
def snapCoeffs (sec : SectionState) (n : Coeffs) : SectionState :=
  { sec with b0 := n.b0, b1 := n.b1, b2 := n.b2, a1 := n.a1, a2 := n.a2 }

/-- Three-list pointwise zip, used to walk `sections`, `oldCoeffs` and
`newCoeffs` together (the source indexes all three by `s`). -/
def zipWith3 (f : α → β → γ → δ) : List α → List β → List γ → List δ
  | a :: as, b :: bs, c :: cs => f a b c :: zipWith3 f as bs cs
  | _, _, _ => []

/-- The `if (this.interpolating)` block executed at the top of each sample
iteration of `process`: recompute the coefficients of every section from
`alpha = interpPos / interpFrames`, advance `interpPos`, and snap to the
target (clearing the flag) once `interpPos` reaches `interpFrames`. -/
noncomputable def interpUpdate (st : FilterProcessor) : FilterProcessor :=
  if st.interpolating then
    let alpha : ℝ := (st.interpPos : ℝ) / (interpFrames : ℝ)
    let secs1 := zipWith3 (applyInterp alpha) st.sections st.oldCoeffs st.newCoeffs
    let pos1 := st.interpPos + 1
    if pos1 ≥ interpFrames then
      { st with
          sections := List.zipWith snapCoeffs secs1 st.newCoeffs
          interpPos := pos1
          interpolating := false }
    else
      { st with sections := secs1, interpPos := pos1 }
  else st

/-- One biquad evaluation plus delay-memory shift, the body of the
`for (const sec of this.sections)` loop:
`y = b0*x + b1*x1 + b2*x2 - a1*y1 - a2*y2`, then
`x2 <- x1, x1 <- x, y2 <- y1, y1 <- y`. -/
def biquadStep (sec : SectionState) (x : ℝ) : SectionState × ℝ :=
  let y := sec.b0 * x + sec.b1 * sec.x1 + sec.b2 * sec.x2
    - sec.a1 * sec.y1 - sec.a2 * sec.y2
  ({ sec with x2 := sec.x1, x1 := x, y2 := sec.y1, y1 := y }, y)

/-- Pass one sample through the cascade of sections in order, returning the
updated sections and the output sample. -/
def cascadeRun : List SectionState → ℝ → List SectionState × ℝ
  | [], x => ([], x)
  | sec :: rest, x =>
    let step := biquadStep sec x
    let tail := cascadeRun rest step.2
    (step.1 :: tail.1, tail.2)

/-- One iteration of the per-sample loop of `process`: the interpolation
update (when active) followed by the cascade evaluation. -/
noncomputable def processSample (st : FilterProcessor) (x : ℝ) :
    FilterProcessor × ℝ :=
  let st1 := interpUpdate st
  let run := cascadeRun st1.sections x
  ({ st1 with sections := run.1 }, run.2)

/-- Block-level `process`: with no sections configured the input block is
passed through unchanged (and the per-sample loop, including the
interpolation update, is skipped); otherwise every sample runs through
`processSample`. -/
noncomputable def processBlock (st : FilterProcessor) (input : List ℝ) :
    FilterProcessor × List ℝ :=
  if st.sections.length = 0 then (st, input)
  else
    input.foldl (fun acc x =>
      let r := processSample acc.1 x
      (r.1, acc.2 ++ [r.2])) (st, [])

/-- State after consuming `t` samples of the stream `inputs`, starting
from `st`. -/
noncomputable def runFrom (inputs : ℕ → ℝ) (st : FilterProcessor) :
    ℕ → FilterProcessor
  | 0 => st
  | t + 1 => (processSample (runFrom inputs st t) (inputs t)).1

/-! Structural lemmas about `pairConjugatePoles`. -/

/-- A section is legitimately formed from the pole list `ps`: a one-pole
section carries the real part of some input pole, and a two-pole section
consists of two input poles that passed the conjugate-matching test while
the first was not near-real. -/
def SecFrom (ps : List Complex) : AnalogSOS → Prop
  | .single p => ∃ p0 ∈ ps, p.re = p0.re
  | .pair p q => p ∈ ps ∧ q ∈ ps ∧ ¬(|p.im| < 1e-10) ∧
      |p.re - q.re| < 1e-10 ∧ |p.im + q.im| < 1e-10

theorem SecFrom.mono {ps ps2 : List Complex} {s : AnalogSOS}
    (hsub : ∀ x ∈ ps, x ∈ ps2) (h : SecFrom ps s) : SecFrom ps2 s := by
  cases s with
  | single p =>
    obtain ⟨p0, hp0, hre⟩ := h
    exact ⟨p0, hsub p0 hp0, hre⟩
  | pair p q =>
    exact ⟨hsub p h.1, hsub q h.2.1, h.2.2.1, h.2.2.2.1, h.2.2.2.2⟩

theorem pairConjugatePoles_secFrom :
    ∀ (n : ℕ) (ps : List Complex), ps.length ≤ n →
      ∀ s ∈ pairConjugatePoles ps, SecFrom ps s := by
  intro n
  induction n with
  | zero =>
    intro ps h s hs
    have : ps = [] := List.length_eq_zero.mp (Nat.le_zero.mp h)
    subst this
    rw [pairConjugatePoles] at hs
    simp at hs
  | succ n ih =>
    intro ps h s hs
    match ps with
    | [] =>
      rw [pairConjugatePoles] at hs
      simp at hs
    | p :: rest =>
      have hrest : rest.length ≤ n := by
        simpa using Nat.lt_succ_iff.mp (Nat.lt_of_lt_of_le (by simp) h)
      rw [pairConjugatePoles] at hs
      split at hs
      · rename_i him
        rcases List.mem_cons.mp hs with hhead | htail
        · subst hhead
          exact ⟨p, List.mem_cons_self p rest, rfl⟩
        · exact (ih rest hrest s htail).mono fun x hx => List.mem_cons_of_mem p hx
      · rename_i him
        split at hs
        · rename_i q rest2 hfc
          rcases List.mem_cons.mp hs with hhead | htail
          · subst hhead
            obtain ⟨hc1, hc2⟩ := findConj_cond hfc
            exact ⟨List.mem_cons_self p rest,
              List.mem_cons_of_mem p (findConj_mem hfc), him, hc1, hc2⟩
          · have hlen2 : rest2.length ≤ n := by
              have := findConj_length hfc
              omega
            exact (ih rest2 hlen2 s htail).mono fun x hx =>
              List.mem_cons_of_mem p (findConj_subset hfc x hx)
        · rename_i hfc
          rcases List.mem_cons.mp hs with hhead | htail
          · subst hhead
            exact ⟨p, List.mem_cons_self p rest, rfl⟩
          · exact (ih rest hrest s htail).mono fun x hx => List.mem_cons_of_mem p hx

theorem pairConjugatePoles_count :
    ∀ (n : ℕ) (ps : List Complex), ps.length ≤ n →
      (((pairConjugatePoles ps).map fun s => s.poles.length).sum) = ps.length := by
  intro n
  induction n with
  | zero =>
    intro ps h
    have : ps = [] := List.length_eq_zero.mp (Nat.le_zero.mp h)
    subst this
    rw [pairConjugatePoles]
    simp
  | succ n ih =>
    intro ps h
    match ps with
    | [] =>
      rw [pairConjugatePoles]
      simp
    | p :: rest =>
      have hrest : rest.length ≤ n := by
        simpa using Nat.lt_succ_iff.mp (Nat.lt_of_lt_of_le (by simp) h)
      rw [pairConjugatePoles]
      split
      · rw [List.map_cons, List.sum_cons, ih rest hrest]
        simp only [AnalogSOS.poles, List.length_cons, List.length_nil]
        omega
      · split
        · rename_i q rest2 hfc
          have hlen2 : rest2.length ≤ n := by
            have := findConj_length hfc
            omega
          rw [List.map_cons, List.sum_cons, ih rest2 hlen2]
          have := findConj_length hfc
          simp only [AnalogSOS.poles, List.length_cons, List.length_nil] at this ⊢
          omega
        · rw [List.map_cons, List.sum_cons, ih rest hrest]
          simp only [AnalogSOS.poles, List.length_cons, List.length_nil]
          omega

/-! Analog prototype lemmas: pole counts and left-half-plane real parts. -/

theorem butterworthPoles_length (order : ℕ) :
    (butterworthPoles order).length = order := by
  rw [butterworthPoles, List.length_map, List.length_range]

theorem chebyshevPoles_length (order : ℕ) (rippleDb : ℝ) :
    (chebyshevPoles order rippleDb).poles.length = order := by
  rw [chebyshevPoles, List.length_map, List.length_range]

/-- The auxiliary angle `pi * (2k + 1) / (2N)` lies in `(0, pi)` whenever
`k < N`, so its sine is positive. -/
theorem sin_aux_angle_pos {k N : ℕ} (hk : k < N) :
    0 < Real.sin (Real.pi * (2 * (k : ℝ) + 1) / (2 * (N : ℝ))) := by
  have hN : (0 : ℝ) < N := by
    have : 1 ≤ N := Nat.one_le_of_lt (Nat.lt_of_le_of_lt (Nat.zero_le k) hk)
    exact_mod_cast Nat.lt_of_lt_of_le Nat.zero_lt_one this
  have hkN : (k : ℝ) + 1 ≤ N := by exact_mod_cast hk
  apply Real.sin_pos_of_pos_of_lt_pi
  · positivity
  · rw [div_lt_iff₀ (by positivity)]
    have h1 : 2 * (k : ℝ) + 1 < 2 * N := by linarith
    nlinarith [Real.pi_pos]

theorem butterworthPoles_re_neg (order : ℕ) :
    ∀ p ∈ butterworthPoles order, p.re < 0 := by
  intro p hp
  rw [butterworthPoles] at hp
  obtain ⟨k, hkmem, rfl⟩ := List.mem_map.mp hp
  have hk : k < order := List.mem_range.mp hkmem
  have hN : (0 : ℝ) < order := by
    have : 1 ≤ order := Nat.one_le_of_lt (Nat.lt_of_le_of_lt (Nat.zero_le k) hk)
    exact_mod_cast Nat.lt_of_lt_of_le Nat.zero_lt_one this
  have hang : Real.pi * (2 * (k : ℝ) + (order : ℝ) + 1) / (2 * (order : ℝ)) =
      Real.pi * (2 * (k : ℝ) + 1) / (2 * (order : ℝ)) + Real.pi / 2 := by
    field_simp
    ring
  show Real.cos _ < 0
  rw [hang, Real.cos_add_pi_div_two]
  simpa using sin_aux_angle_pos hk

theorem chebyshevPoles_re_neg (order : ℕ) (rippleDb : ℝ) (hr : 0 < rippleDb) :
    ∀ p ∈ (chebyshevPoles order rippleDb).poles, p.re < 0 := by
  intro p hp
  rw [chebyshevPoles] at hp
  obtain ⟨k, hkmem, rfl⟩ := List.mem_map.mp hp
  have hk : k < order := List.mem_range.mp hkmem
  have hN : (0 : ℝ) < order := by
    have : 1 ≤ order := Nat.one_le_of_lt (Nat.lt_of_le_of_lt (Nat.zero_le k) hk)
    exact_mod_cast Nat.lt_of_lt_of_le Nat.zero_lt_one this
  have heps : (0 : ℝ) < Real.sqrt ((10 : ℝ) ^ (rippleDb / 10) - 1) := by
    apply Real.sqrt_pos.mpr
    have : (1 : ℝ) < (10 : ℝ) ^ (rippleDb / 10) := by
      rw [Real.one_lt_rpow_iff_of_pos (by norm_num)]
      exact Or.inl ⟨by norm_num, by linarith⟩
    linarith
  have hmu : 0 < (1 / (order : ℝ)) *
      Real.arsinh (1 / Real.sqrt ((10 : ℝ) ^ (rippleDb / 10) - 1)) := by
    apply mul_pos (by positivity)
    exact Real.arsinh_pos_iff.mpr (by positivity)
  have hsinh := Real.sinh_pos_iff.mpr hmu
  have hsin := sin_aux_angle_pos hk
  show -(Real.sinh _) * Real.sin _ < 0
  exact mul_neg_of_neg_of_pos (neg_neg_iff_pos.mpr hsinh) hsin

theorem besselOrder2Raw_re_neg : ∀ p ∈ besselOrder2Raw, p.re < 0 := by
  intro p hp
  simp only [besselOrder2Raw, List.mem_cons, List.not_mem_nil, or_false] at hp
  rcases hp with rfl | rfl <;> norm_num

theorem besselData_none (order : ℕ) (h : order = 0 ∨ 9 ≤ order) :
    besselData order = none := by
  rcases h with rfl | h
  · rfl
  · obtain ⟨m, rfl⟩ : ∃ m, order = m + 9 := ⟨order - 9, by omega⟩
    rfl

theorem besselPoles_fallback (order : ℕ) (h : order = 0 ∨ 9 ≤ order) :
    besselPoles order = besselOrder2Raw := by
  rw [besselPoles, besselData_none order h]

theorem besselPoles_re_neg (order : ℕ) :
    ∀ p ∈ besselPoles order, p.re < 0 := by
  match order with
  | 0 =>
    rw [besselPoles_fallback 0 (Or.inl rfl)]
    exact besselOrder2Raw_re_neg
  | n + 9 =>
    rw [besselPoles_fallback (n + 9) (Or.inr (by omega))]
    exact besselOrder2Raw_re_neg
  | 1 =>
    intro p hp
    simp only [besselPoles, besselData, List.map_cons, List.map_nil] at hp
    fin_cases hp <;> norm_num
  | 2 =>
    intro p hp
    simp only [besselPoles, besselData, besselOrder2Raw,
      List.map_cons, List.map_nil] at hp
    fin_cases hp <;> norm_num
  | 3 =>
    intro p hp
    simp only [besselPoles, besselData, List.map_cons, List.map_nil] at hp
    fin_cases hp <;> norm_num
  | 4 =>
    intro p hp
    simp only [besselPoles, besselData, List.map_cons, List.map_nil] at hp
    fin_cases hp <;> norm_num
  | 5 =>
    intro p hp
    simp only [besselPoles, besselData, List.map_cons, List.map_nil] at hp
    fin_cases hp <;> norm_num
  | 6 =>
    intro p hp
    simp only [besselPoles, besselData, List.map_cons, List.map_nil] at hp
    fin_cases hp <;> norm_num
  | 7 =>
    intro p hp
    simp only [besselPoles, besselData, List.map_cons, List.map_nil] at hp
    fin_cases hp <;> norm_num
  | 8 =>
    intro p hp
    simp only [besselPoles, besselData, List.map_cons, List.map_nil] at hp
    fin_cases hp <;> norm_num

theorem besselPoles_length_table (order : ℕ) (h1 : 1 ≤ order) (h8 : order ≤ 8) :
    (besselPoles order).length = order := by
  interval_cases order <;>
    simp [besselPoles, besselData, besselOrder2Raw]

theorem besselPoles_length_fallback (order : ℕ) (h : order = 0 ∨ 9 ≤ order) :
    (besselPoles order).length = 2 := by
  rw [besselPoles_fallback order h, besselOrder2Raw]
  rfl

/-- Every analog prototype pole returned by `getAnalogPoles` has strictly
negative real part (for Chebyshev this requires a positive ripple). -/
theorem getAnalogPoles_re_neg (params : FilterParams)
    (hr : params.family = FilterFamily.chebyshev → 0 < params.rippleDb) :
    ∀ p ∈ getAnalogPoles params, p.re < 0 := by
  rw [getAnalogPoles]
  match hfam : params.family with
  | .butterworth => exact butterworthPoles_re_neg params.order
  | .chebyshev => exact chebyshevPoles_re_neg params.order params.rippleDb (hr hfam)
  | .bessel => exact besselPoles_re_neg params.order

/-! Bilinear transform lemmas. -/

/-- The bilinear transform maps any point with strictly negative real part
strictly inside the unit circle. -/
theorem bilinear_magSq_lt_one (s : Complex) (fs : ℝ) (hfs : 0 < fs)
    (hre : s.re < 0) :
    (bilinear s fs).re ^ 2 + (bilinear s fs).im ^ 2 < 1 := by
  have hh : 0 < 1 / fs / 2 := by positivity
  simp only [bilinear]
  set u := s.re * (1 / fs / 2) with hu
  set v := s.im * (1 / fs / 2) with hv
  have hu0 : u < 0 := mul_neg_of_neg_of_pos hre hh
  have hD : 0 < (1 - u) * (1 - u) + -v * -v := by nlinarith
  rw [div_pow, div_pow, div_add_div_same, div_lt_one (by positivity)]
  have key : ((1 + u) ^ 2 + v ^ 2) * ((1 - u) ^ 2 + v ^ 2) <
      ((1 - u) ^ 2 + v ^ 2) * ((1 - u) ^ 2 + v ^ 2) := by
    apply mul_lt_mul_of_pos_right _ (by nlinarith)
    nlinarith
  calc ((1 + u) * (1 - u) + v * -v) ^ 2 + (v * (1 - u) - (1 + u) * -v) ^ 2
      = ((1 + u) ^ 2 + v ^ 2) * ((1 - u) ^ 2 + v ^ 2) := by ring
    _ < ((1 - u) ^ 2 + v ^ 2) * ((1 - u) ^ 2 + v ^ 2) := key
    _ = ((1 - u) * (1 - u) + -v * -v) ^ 2 := by ring

/-- The imaginary part of the bilinear image is a positive multiple of the
imaginary part of the input (for inputs in the open left half-plane). -/
theorem bilinear_im_eq (s : Complex) (fs : ℝ) (hfs : 0 < fs)
    (hre : s.re < 0) :
    ∃ c : ℝ, 0 < c ∧ (bilinear s fs).im = c * s.im := by
  have hh : 0 < 1 / fs / 2 := by positivity
  have hD : 0 < (1 - s.re * (1 / fs / 2)) * (1 - s.re * (1 / fs / 2)) +
      -(s.im * (1 / fs / 2)) * -(s.im * (1 / fs / 2)) := by
    have hu0 : s.re * (1 / fs / 2) < 0 := mul_neg_of_neg_of_pos hre hh
    nlinarith [sq_nonneg (s.im * (1 / fs / 2))]
  refine ⟨2 * (1 / fs / 2) / ((1 - s.re * (1 / fs / 2)) * (1 - s.re * (1 / fs / 2)) +
      -(s.im * (1 / fs / 2)) * -(s.im * (1 / fs / 2))), by positivity, ?_⟩
  simp only [bilinear]
  rw [div_mul_eq_mul_div]
  congr 1
  ring

/-- Magnitude inside the unit circle forces the real part into `(-1, 1)`. -/
theorem abs_re_lt_one_of_magSq {z : Complex}
    (h : z.re ^ 2 + z.im ^ 2 < 1) : |z.re| < 1 := by
  rw [abs_lt]
  constructor <;> nlinarith [sq_nonneg z.im, sq_nonneg (z.re + 1), sq_nonneg (z.re - 1)]

/-- The conjugate-matching test combined with the failed near-real test
forces the two imaginary parts to have strictly opposite signs. -/
theorem opp_im_signs {p q : Complex}
    (hnr : ¬(|p.im| < 1e-10)) (hm : |p.im + q.im| < 1e-10) :
    p.im * q.im < 0 := by
  have heps : (0 : ℝ) < 1e-10 := by norm_num
  push_neg at hnr
  rw [abs_lt] at hm
  rcases le_abs'.mp hnr with h | h
  · have hq : 0 < q.im := by linarith [hm.1]
    have hp : p.im < 0 := by linarith
    exact mul_neg_of_neg_of_pos hp hq
  · have hq : q.im < 0 := by linarith [hm.2]
    have hp : 0 < p.im := by linarith
    exact mul_neg_of_pos_of_neg hp hq

/-- The prewarped analog cutoff is strictly positive for valid cutoffs. -/
theorem prewarp_pos (fc fs : ℝ) (hfs : 0 < fs) (h1 : 0 < fc)
    (h2 : fc < fs / 2) : 0 < prewarp fc fs := by
  rw [prewarp]
  have hang : 2 * Real.pi * fc / fs / 2 = Real.pi * fc / fs := by ring
  rw [hang]
  apply mul_pos (by positivity)
  apply Real.tan_pos_of_pos_of_lt_pi_div_two
  · positivity
  · rw [div_lt_div_iff₀ hfs (by norm_num : (0 : ℝ) < 2)]
    nlinarith [Real.pi_pos]

/-! Pipeline-level lemmas about `buildSOS` and `designFilter`. -/

/-- Validity of a filter specification: integer order at least 1, positive
ripple, and a cutoff clamped into `(0, 0.95 * Nyquist]` as required of
callers of the design engine. -/
def FilterParams.Valid (params : FilterParams) (sampleRate : ℝ) : Prop :=
  1 ≤ params.order ∧ 0 < params.rippleDb ∧ 0 < params.cutoffFrequency ∧
    params.cutoffFrequency ≤ 0.95 * (sampleRate / 2)

theorem FilterParams.Valid.cutoff_pos {params : FilterParams} {fs : ℝ}
    (h : params.Valid fs) : 0 < params.cutoffFrequency := h.2.2.1

theorem FilterParams.Valid.cutoff_lt {params : FilterParams} {fs : ℝ}
    (hfs : 0 < fs) (h : params.Valid fs) :
    params.cutoffFrequency < fs / 2 := by
  have := h.2.2.2
  nlinarith

theorem designFilter_poles (params : FilterParams) (fs : ℝ) (n : ℕ) :
    (designFilter params fs n).poles =
      (buildSOS params fs (getAnalogPoles params)).2.1 := rfl

theorem designFilter_zeros (params : FilterParams) (fs : ℝ) (n : ℕ) :
    (designFilter params fs n).zeros =
      (buildSOS params fs (getAnalogPoles params)).2.2 := rfl

theorem designFilter_sos (params : FilterParams) (fs : ℝ) (n : ℕ) :
    (designFilter params fs n).sos =
      (buildSOS params fs (getAnalogPoles params)).1 := rfl

theorem designFilter_frequencies (params : FilterParams) (fs : ℝ) (n : ℕ) :
    (designFilter params fs n).frequencies =
      (evalSOS (buildSOS params fs (getAnalogPoles params)).1 fs n).frequencies := rfl

/-- Membership in the z-plane pole output of `buildSOS`, unfolded to the
per-section contributions. -/
theorem mem_buildSOS_poles {params : FilterParams} {fs : ℝ}
    {aps : List Complex} {z : Complex} :
    z ∈ (buildSOS params fs aps).2.1 ↔
      ∃ sec ∈ pairConjugatePoles aps,
        z ∈ (sosOfSection (zeroLocation params.type) (evalLocation params.type)
          (prewarp params.cutoffFrequency fs) fs sec).2.1 := by
  simp only [buildSOS, List.mem_flatten, List.mem_map]
  constructor
  · rintro ⟨l, ⟨part, ⟨sec, hsec, rfl⟩, rfl⟩, hz⟩
    exact ⟨sec, hsec, hz⟩
  · rintro ⟨sec, hsec, hz⟩
    exact ⟨_, ⟨_, ⟨sec, hsec, rfl⟩, rfl⟩, hz⟩

/-- Membership in the z-plane zero output of `buildSOS`. -/
theorem mem_buildSOS_zeros {params : FilterParams} {fs : ℝ}
    {aps : List Complex} {w : Complex} :
    w ∈ (buildSOS params fs aps).2.2 ↔
      ∃ sec ∈ pairConjugatePoles aps,
        w ∈ (sosOfSection (zeroLocation params.type) (evalLocation params.type)
          (prewarp params.cutoffFrequency fs) fs sec).2.2 := by
  simp only [buildSOS, List.mem_flatten, List.mem_map]
  constructor
  · rintro ⟨l, ⟨part, ⟨sec, hsec, rfl⟩, rfl⟩, hw⟩
    exact ⟨sec, hsec, hw⟩
  · rintro ⟨sec, hsec, hw⟩
    exact ⟨_, ⟨_, ⟨sec, hsec, rfl⟩, rfl⟩, hw⟩

/-- Membership in the SOS list output of `buildSOS`. -/
theorem mem_buildSOS_sos {params : FilterParams} {fs : ℝ}
    {aps : List Complex} {s : SOSSection} :
    s ∈ (buildSOS params fs aps).1 ↔
      ∃ sec ∈ pairConjugatePoles aps,
        s = (sosOfSection (zeroLocation params.type) (evalLocation params.type)
          (prewarp params.cutoffFrequency fs) fs sec).1 := by
  simp only [buildSOS, List.mem_map]
  constructor
  · rintro ⟨part, ⟨sec, hsec, rfl⟩, rfl⟩
    exact ⟨sec, hsec, rfl⟩
  · rintro ⟨sec, hsec, rfl⟩
    exact ⟨_, ⟨sec, hsec, rfl⟩, rfl⟩

/-- Every z-plane pole produced by `buildSOS` from left-half-plane analog
poles (with a positive prewarped cutoff) lies strictly inside the unit
circle. -/
theorem buildSOS_poles_stable (params : FilterParams) (fs : ℝ)
    (aps : List Complex) (hfs : 0 < fs)
    (hwarp : 0 < prewarp params.cutoffFrequency fs)
    (hneg : ∀ p ∈ aps, p.re < 0) :
    ∀ z ∈ (buildSOS params fs aps).2.1, z.re ^ 2 + z.im ^ 2 < 1 := by
  intro z hz
  obtain ⟨sec, hsec, hzin⟩ := mem_buildSOS_poles.mp hz
  have hgood := pairConjugatePoles_secFrom aps.length aps le_rfl sec hsec
  cases sec with
  | single p =>
    obtain ⟨p0, hp0, hre_eq⟩ := hgood
    simp only [sosOfSection, List.mem_cons, List.not_mem_nil, or_false] at hzin
    subst hzin
    apply bilinear_magSq_lt_one _ fs hfs
    show prewarp params.cutoffFrequency fs * p.re < 0
    rw [hre_eq]
    exact mul_neg_of_pos_of_neg hwarp (hneg p0 hp0)
  | pair p q =>
    obtain ⟨hp, hq, -, -, -⟩ := hgood
    simp only [sosOfSection, List.mem_cons, List.not_mem_nil, or_false] at hzin
    rcases hzin with rfl | rfl
    · apply bilinear_magSq_lt_one _ fs hfs
      show prewarp params.cutoffFrequency fs * p.re < 0
      exact mul_neg_of_pos_of_neg hwarp (hneg p hp)
    · apply bilinear_magSq_lt_one _ fs hfs
      show prewarp params.cutoffFrequency fs * q.re < 0
      exact mul_neg_of_pos_of_neg hwarp (hneg q hq)

/-- Value of the normalized transfer function of a section
`H(z) = (b0 + b1 z^(-1) + b2 z^(-2)) / (1 + a1 z^(-1) + a2 z^(-2))`
at a real point `z`. -/
noncomputable def sosEvalAtReal (s : SOSSection) (z : ℝ) : ℝ :=
  (s.b0 + s.b1 / z + s.b2 / (z * z)) / (1 + s.a1 / z + s.a2 / (z * z))

/-- Every SOS section produced by `buildSOS` from left-half-plane analog
poles evaluates to exactly 1 at the gain-normalization reference point
(`z = 1` for lowpass, `z = -1` for highpass). -/
theorem buildSOS_gain_norm (params : FilterParams) (fs : ℝ)
    (aps : List Complex) (hfs : 0 < fs)
    (hwarp : 0 < prewarp params.cutoffFrequency fs)
    (hneg : ∀ p ∈ aps, p.re < 0) :
    ∀ s ∈ (buildSOS params fs aps).1,
      sosEvalAtReal s (evalLocation params.type) = 1 := by
  intro s hs
  obtain ⟨sec, hsec, rfl⟩ := mem_buildSOS_sos.mp hs
  have hgood := pairConjugatePoles_secFrom aps.length aps le_rfl sec hsec
  have hze : (zeroLocation params.type = -1 ∧ evalLocation params.type = 1) ∨
      (zeroLocation params.type = 1 ∧ evalLocation params.type = -1) := by
    cases params.type
    · exact Or.inl ⟨by simp [zeroLocation], by simp [evalLocation]⟩
    · exact Or.inr ⟨by simp [zeroLocation], by simp [evalLocation]⟩
  cases sec with
  | single p =>
    obtain ⟨p0, hp0, hre_eq⟩ := hgood
    have hre : (⟨prewarp params.cutoffFrequency fs * p.re, 0⟩ : Complex).re < 0 := by
      show prewarp params.cutoffFrequency fs * p.re < 0
      rw [hre_eq]
      exact mul_neg_of_pos_of_neg hwarp (hneg p0 hp0)
    have habs := abs_re_lt_one_of_magSq
      (bilinear_magSq_lt_one _ fs hfs hre)
    rw [abs_lt] at habs
    obtain ⟨hm1, hp1⟩ := habs
    rcases hze with ⟨hzz, hee⟩ | ⟨hzz, hee⟩ <;> rw [hzz, hee] <;>
      simp only [sosOfSection, sosEvalAtReal] <;>
      generalize hg : (bilinear ⟨prewarp params.cutoffFrequency fs * p.re, 0⟩ fs).re
        = x at hm1 hp1 ⊢
    · have hden : (1 : ℝ) + -x / 1 + 0 / (1 * 1) ≠ 0 := by
        have he : (1 : ℝ) + -x / 1 + 0 / (1 * 1) = 1 - x := by ring
        rw [he]; intro h; linarith
      rw [div_eq_one_iff_eq hden]
      ring
    · have hden : (1 : ℝ) + -x / (-1) + 0 / (-1 * -1) ≠ 0 := by
        have he : (1 : ℝ) + -x / (-1) + 0 / (-1 * -1) = 1 + x := by ring
        rw [he]; intro h; linarith
      rw [div_eq_one_iff_eq hden]
      ring
  | pair p q =>
    obtain ⟨hp, hq, hnr, hcre, hcim⟩ := hgood
    have hre1 : (⟨prewarp params.cutoffFrequency fs * p.re,
        prewarp params.cutoffFrequency fs * p.im⟩ : Complex).re < 0 := by
      show prewarp params.cutoffFrequency fs * p.re < 0
      exact mul_neg_of_pos_of_neg hwarp (hneg p hp)
    have hre2 : (⟨prewarp params.cutoffFrequency fs * q.re,
        prewarp params.cutoffFrequency fs * q.im⟩ : Complex).re < 0 := by
      show prewarp params.cutoffFrequency fs * q.re < 0
      exact mul_neg_of_pos_of_neg hwarp (hneg q hq)
    have habs1 := abs_re_lt_one_of_magSq (bilinear_magSq_lt_one _ fs hfs hre1)
    have habs2 := abs_re_lt_one_of_magSq (bilinear_magSq_lt_one _ fs hfs hre2)
    rw [abs_lt] at habs1 habs2
    obtain ⟨hb1, hb2⟩ := habs1
    obtain ⟨hb3, hb4⟩ := habs2
    obtain ⟨c1, hc1, him1⟩ := bilinear_im_eq _ fs hfs hre1
    obtain ⟨c2, hc2, him2⟩ := bilinear_im_eq _ fs hfs hre2
    have himneg : (bilinear ⟨prewarp params.cutoffFrequency fs * p.re,
          prewarp params.cutoffFrequency fs * p.im⟩ fs).im *
        (bilinear ⟨prewarp params.cutoffFrequency fs * q.re,
          prewarp params.cutoffFrequency fs * q.im⟩ fs).im < 0 := by
      rw [him1, him2]
      show c1 * (prewarp params.cutoffFrequency fs * p.im) *
        (c2 * (prewarp params.cutoffFrequency fs * q.im)) < 0
      have himpq := opp_im_signs hnr hcim
      have hpos : 0 < c1 * c2 * (prewarp params.cutoffFrequency fs *
          prewarp params.cutoffFrequency fs) := by positivity
      calc c1 * (prewarp params.cutoffFrequency fs * p.im) *
            (c2 * (prewarp params.cutoffFrequency fs * q.im))
          = (c1 * c2 * (prewarp params.cutoffFrequency fs *
              prewarp params.cutoffFrequency fs)) * (p.im * q.im) := by ring
        _ < 0 := mul_neg_of_pos_of_neg hpos himpq
    rcases hze with ⟨hzz, hee⟩ | ⟨hzz, hee⟩ <;> rw [hzz, hee] <;>
      simp only [sosOfSection, sosEvalAtReal] <;>
      generalize hgx1 : (bilinear ⟨prewarp params.cutoffFrequency fs * p.re,
        prewarp params.cutoffFrequency fs * p.im⟩ fs).re = x1 at hb1 hb2 ⊢ <;>
      generalize hgy1 : (bilinear ⟨prewarp params.cutoffFrequency fs * p.re,
        prewarp params.cutoffFrequency fs * p.im⟩ fs).im = y1 at himneg ⊢ <;>
      generalize hgx2 : (bilinear ⟨prewarp params.cutoffFrequency fs * q.re,
        prewarp params.cutoffFrequency fs * q.im⟩ fs).re = x2 at hb3 hb4 ⊢ <;>
      generalize hgy2 : (bilinear ⟨prewarp params.cutoffFrequency fs * q.re,
        prewarp params.cutoffFrequency fs * q.im⟩ fs).im = y2 at himneg ⊢
    · have hD : 0 < 1 - (x1 + x2) + (x1 * x2 - y1 * y2) := by nlinarith
      have hden : (1 : ℝ) + -(x1 + x2) / 1 + (x1 * x2 - y1 * y2) / (1 * 1) ≠ 0 := by
        have he : (1 : ℝ) + -(x1 + x2) / 1 + (x1 * x2 - y1 * y2) / (1 * 1) =
            1 - (x1 + x2) + (x1 * x2 - y1 * y2) := by ring
        rw [he]; exact ne_of_gt hD
      rw [div_eq_one_iff_eq hden]
      ring
    · have hD : 0 < 1 + (x1 + x2) + (x1 * x2 - y1 * y2) := by nlinarith
      have hden : (1 : ℝ) + -(x1 + x2) / (-1) + (x1 * x2 - y1 * y2) / (-1 * -1) ≠ 0 := by
        have he : (1 : ℝ) + -(x1 + x2) / (-1) + (x1 * x2 - y1 * y2) / (-1 * -1) =
            1 + (x1 + x2) + (x1 * x2 - y1 * y2) := by ring
        rw [he]; exact ne_of_gt hD
      rw [div_eq_one_iff_eq hden]
      ring

/-- Each section contributes as many z-plane poles as analog poles. -/
theorem sosOfSection_zPoles_length (zeroZ evalAt omegaA fs : ℝ)
    (sec : AnalogSOS) :
    (sosOfSection zeroZ evalAt omegaA fs sec).2.1.length = sec.poles.length := by
  cases sec <;> rfl

/-- Each section contributes as many z-plane zeros as analog poles. -/
theorem sosOfSection_zZeros_length (zeroZ evalAt omegaA fs : ℝ)
    (sec : AnalogSOS) :
    (sosOfSection zeroZ evalAt omegaA fs sec).2.2.length = sec.poles.length := by
  cases sec <;> rfl

theorem buildSOS_poles_length (params : FilterParams) (fs : ℝ)
    (aps : List Complex) :
    (buildSOS params fs aps).2.1.length = aps.length := by
  simp only [buildSOS]
  rw [List.length_flatten, List.map_map, List.map_map]
  have hcong : ∀ sec ∈ pairConjugatePoles aps,
      ((List.length ∘ fun x => x.2.1) ∘ sosOfSection (zeroLocation params.type)
        (evalLocation params.type) (prewarp params.cutoffFrequency fs) fs) sec =
      (fun sec => sec.poles.length) sec := by
    intro sec hsec
    exact sosOfSection_zPoles_length _ _ _ _ sec
  rw [List.map_congr_left hcong, pairConjugatePoles_count aps.length aps le_rfl]

theorem buildSOS_zeros_length (params : FilterParams) (fs : ℝ)
    (aps : List Complex) :
    (buildSOS params fs aps).2.2.length = aps.length := by
  simp only [buildSOS]
  rw [List.length_flatten, List.map_map, List.map_map]
  have hcong : ∀ sec ∈ pairConjugatePoles aps,
      ((List.length ∘ fun x => x.2.2) ∘ sosOfSection (zeroLocation params.type)
        (evalLocation params.type) (prewarp params.cutoffFrequency fs) fs) sec =
      (fun sec => sec.poles.length) sec := by
    intro sec hsec
    exact sosOfSection_zZeros_length _ _ _ _ sec
  rw [List.map_congr_left hcong, pairConjugatePoles_count aps.length aps le_rfl]

/-- Every z-plane zero pushed by `buildSOS` sits exactly at the chosen zero
location (`-1` for lowpass, `+1` for highpass) on the real axis. -/
theorem buildSOS_zeros_loc (params : FilterParams) (fs : ℝ)
    (aps : List Complex) :
    ∀ w ∈ (buildSOS params fs aps).2.2,
      w = ⟨zeroLocation params.type, 0⟩ := by
  intro w hw
  obtain ⟨sec, hsec, hwin⟩ := mem_buildSOS_zeros.mp hw
  cases sec with
  | single p =>
    simp only [sosOfSection, List.mem_cons, List.not_mem_nil, or_false] at hwin
    exact hwin
  | pair p q =>
    simp only [sosOfSection, List.mem_cons, List.not_mem_nil, or_false] at hwin
    rcases hwin with rfl | rfl <;> rfl

/-! Frequency grid lemmas for `evalSOS`. -/

theorem evalSOS_frequencies_length (sos : List SOSSection) (fs : ℝ) (n : ℕ) :
    (evalSOS sos fs n).frequencies.length = n := by
  simp [evalSOS]

/-- Grid point formula of `evalSOS`: the `i`-th frequency is
`(i / numPoints) * (sampleRate / 2)`. -/
theorem evalSOS_frequencies_getD (sos : List SOSSection) (fs : ℝ) (n : ℕ)
    (i : ℕ) (hi : i < n) :
    (evalSOS sos fs n).frequencies.getD i 0 =
      ((i : ℝ) / (n : ℝ)) * (fs / 2) := by
  simp only [evalSOS]
  rw [List.getD_eq_getElem?_getD]
  simp [List.getElem?_map, List.getElem?_range hi]

/-! Processor lemmas. -/

/-- Pointwise linear interpolation `old + alpha * (new - old)` on all five
coefficients. -/
def lerpCoeffs (alpha : ℝ) (o n : Coeffs) : Coeffs :=
  ⟨o.b0 + alpha * (n.b0 - o.b0), o.b1 + alpha * (n.b1 - o.b1),
   o.b2 + alpha * (n.b2 - o.b2), o.a1 + alpha * (n.a1 - o.a1),
   o.a2 + alpha * (n.a2 - o.a2)⟩

theorem lerpCoeffs_zero (o n : Coeffs) : lerpCoeffs 0 o n = o := by
  cases o
  simp [lerpCoeffs]

theorem zipWith_lerpCoeffs_zero :
    ∀ (O T : List Coeffs), O.length = T.length →
      List.zipWith (lerpCoeffs 0) O T = O := by
  intro O
  induction O with
  | nil => intro T h; simp
  | cons o os ih =>
    intro T h
    cases T with
    | nil => simp at h
    | cons t ts =>
      rw [List.zipWith_cons_cons, lerpCoeffs_zero, ih ts (by simpa using h)]

theorem updateCoefficients_same (msg : List SOSSection) (st : FilterProcessor)
    (hlen : msg.length = st.sections.length) :
    updateCoefficients msg st =
      { st with
          oldCoeffs := st.sections.map coeffsOfSection
          newCoeffs := msg.map coeffsOfSOS
          interpPos := 0
          interpolating := true } := by
  rw [updateCoefficients]
  simp [hlen]

theorem updateCoefficients_diff (msg : List SOSSection) (st : FilterProcessor)
    (hlen : msg.length ≠ st.sections.length) :
    updateCoefficients msg st =
      { st with
          sections := (msg.map coeffsOfSOS).map freshSection
          interpolating := false } := by
  rw [updateCoefficients]
  simp [hlen]

theorem cascadeRun_length (x : ℝ) :
    ∀ secs : List SectionState, (cascadeRun secs x).1.length = secs.length := by
  intro secs
  induction secs generalizing x with
  | nil => rfl
  | cons sec rest ih =>
    show ((biquadStep sec x).1 :: (cascadeRun rest (biquadStep sec x).2).1).length
      = rest.length + 1
    simp [ih]
  -- note: `cascadeRun` threads the output of each stage into the next
  -- stage, so the induction generalizes over the input sample

theorem cascadeRun_coeffs (x : ℝ) :
    ∀ secs : List SectionState,
      (cascadeRun secs x).1.map coeffsOfSection = secs.map coeffsOfSection := by
  intro secs
  induction secs generalizing x with
  | nil => rfl
  | cons sec rest ih =>
    show coeffsOfSection (biquadStep sec x).1 ::
        ((cascadeRun rest (biquadStep sec x).2).1.map coeffsOfSection)
      = coeffsOfSection sec :: rest.map coeffsOfSection
    rw [ih]
    rfl

theorem zipWith3_length (f : α → β → γ → δ) :
    ∀ (as : List α) (bs : List β) (cs : List γ),
      as.length = bs.length → bs.length = cs.length →
      (zipWith3 f as bs cs).length = as.length := by
  intro as
  induction as with
  | nil => intro bs cs h1 h2; rfl
  | cons a as ih =>
    intro bs cs h1 h2
    cases bs with
    | nil => simp at h1
    | cons b bs =>
      cases cs with
      | nil => simp at h2
      | cons c cs =>
        show (zipWith3 f as bs cs).length + 1 = as.length + 1
        rw [ih bs cs (by simpa using h1) (by simpa using h2)]

/-- The interpolation pass writes exactly the pointwise lerp of the old and
new coefficient sets into the sections (delay memory aside). -/
theorem zipWith3_applyInterp_coeffs (alpha : ℝ) :
    ∀ (secs : List SectionState) (O T : List Coeffs),
      secs.length = O.length → O.length = T.length →
      (zipWith3 (applyInterp alpha) secs O T).map coeffsOfSection =
        List.zipWith (lerpCoeffs alpha) O T := by
  intro secs
  induction secs with
  | nil =>
    intro O T h1 h2
    have : O = [] := List.length_eq_zero.mp h1.symm
    subst this
    rfl
  | cons sec secs ih =>
    intro O T h1 h2
    cases O with
    | nil => simp at h1
    | cons o os =>
      cases T with
      | nil => simp at h2
      | cons t ts =>
        show coeffsOfSection (applyInterp alpha sec o t) ::
            (zipWith3 (applyInterp alpha) secs os ts).map coeffsOfSection =
          lerpCoeffs alpha o t :: List.zipWith (lerpCoeffs alpha) os ts
        rw [ih os ts (by simpa using h1) (by simpa using h2)]
        rfl

/-- The snap pass writes exactly the target coefficients. -/
theorem zipWith_snapCoeffs_coeffs :
    ∀ (secs : List SectionState) (T : List Coeffs), secs.length = T.length →
      (List.zipWith snapCoeffs secs T).map coeffsOfSection = T := by
  intro secs
  induction secs with
  | nil =>
    intro T h
    have : T = [] := List.length_eq_zero.mp h.symm
    subst this
    rfl
  | cons sec secs ih =>
    intro T h
    cases T with
    | nil => simp at h
    | cons t ts =>
      show coeffsOfSection (snapCoeffs sec t) ::
          (List.zipWith snapCoeffs secs ts).map coeffsOfSection = t :: ts
      rw [ih ts (by simpa using h)]
      rfl

theorem processSample_fst (st : FilterProcessor) (x : ℝ) :
    (processSample st x).1 =
      { interpUpdate st with
          sections := (cascadeRun (interpUpdate st).sections x).1 } := rfl

theorem interpUpdate_of_not (st : FilterProcessor)
    (h : st.interpolating = false) : interpUpdate st = st := by
  rw [interpUpdate, h]
  simp

theorem interpUpdate_mid (st : FilterProcessor) (h : st.interpolating = true)
    (hlt : st.interpPos + 1 < interpFrames) :
    interpUpdate st =
      { st with
          sections := zipWith3
            (applyInterp ((st.interpPos : ℝ) / (interpFrames : ℝ)))
            st.sections st.oldCoeffs st.newCoeffs
          interpPos := st.interpPos + 1 } := by
  rw [interpUpdate, h]
  simp only [if_true]
  rw [if_neg (by omega)]

theorem interpUpdate_snap (st : FilterProcessor) (h : st.interpolating = true)
    (hge : st.interpPos + 1 ≥ interpFrames) :
    interpUpdate st =
      { st with
          sections := List.zipWith snapCoeffs
            (zipWith3 (applyInterp ((st.interpPos : ℝ) / (interpFrames : ℝ)))
              st.sections st.oldCoeffs st.newCoeffs)
            st.newCoeffs
          interpPos := st.interpPos + 1
          interpolating := false } := by
  rw [interpUpdate, h]
  simp only [if_true]
  rw [if_pos hge]

/-- Invariant of the interpolation window: for the first 256 samples after a
same-count update the processor stays interpolating, its position counts the
samples, and the latched coefficient sets are untouched. -/
theorem runFrom_interp_invariant (inputs : ℕ → ℝ) (st0 : FilterProcessor)
    (k : ℕ) (hsec : st0.sections.length = k) (hold : st0.oldCoeffs.length = k)
    (hnew : st0.newCoeffs.length = k) (hpos : st0.interpPos = 0)
    (hint : st0.interpolating = true) :
    ∀ t, t ≤ 255 →
      (runFrom inputs st0 t).interpolating = true ∧
      (runFrom inputs st0 t).interpPos = t ∧
      (runFrom inputs st0 t).oldCoeffs = st0.oldCoeffs ∧
      (runFrom inputs st0 t).newCoeffs = st0.newCoeffs ∧
      (runFrom inputs st0 t).sections.length = k := by
  intro t
  induction t with
  | zero =>
    intro ht
    exact ⟨hint, hpos, rfl, rfl, hsec⟩
  | succ t ih =>
    intro ht
    obtain ⟨h1, h2, h3, h4, h5⟩ := ih (by omega)
    have hmid := interpUpdate_mid (runFrom inputs st0 t) h1
      (by rw [h2]; rw [interpFrames]; omega)
    rw [runFrom, processSample_fst, hmid]
    refine ⟨h1, by rw [h2], h3, h4, ?_⟩
    show (cascadeRun (zipWith3 _ (runFrom inputs st0 t).sections
      (runFrom inputs st0 t).oldCoeffs (runFrom inputs st0 t).newCoeffs)
        (inputs t)).1.length = k
    rw [cascadeRun_length, zipWith3_length _ _ _ _
      (by rw [h5, h3, hold]) (by rw [h3, hold, h4, hnew]), h5]

/-- Applied coefficients at interpolation sample `t < 255`: the exact lerp
`old + (t/256) * (new - old)`. -/
theorem applied_coeffs_mid (inputs : ℕ → ℝ) (st0 : FilterProcessor)
    (k : ℕ) (hsec : st0.sections.length = k) (hold : st0.oldCoeffs.length = k)
    (hnew : st0.newCoeffs.length = k) (hpos : st0.interpPos = 0)
    (hint : st0.interpolating = true) (t : ℕ) (ht : t ≤ 254) :
    (interpUpdate (runFrom inputs st0 t)).sections.map coeffsOfSection =
      List.zipWith (lerpCoeffs ((t : ℝ) / 256)) st0.oldCoeffs st0.newCoeffs := by
  obtain ⟨h1, h2, h3, h4, h5⟩ :=
    runFrom_interp_invariant inputs st0 k hsec hold hnew hpos hint t (by omega)
  rw [interpUpdate_mid _ h1 (by rw [h2]; rw [interpFrames]; omega)]
  show (zipWith3 (applyInterp ((runFrom inputs st0 t).interpPos / (interpFrames : ℝ)))
      (runFrom inputs st0 t).sections (runFrom inputs st0 t).oldCoeffs
      (runFrom inputs st0 t).newCoeffs).map coeffsOfSection = _
  rw [zipWith3_applyInterp_coeffs _ _ _ _
    (by rw [h5, h3, hold]) (by rw [h3, hold, h4, hnew]), h3, h4, h2]
  norm_num [interpFrames]

set_option maxRecDepth 4096 in
/-- Applied coefficients at interpolation sample 255 (the 256th): the snap
to the target happens before the cascade, so the target coefficients are
applied, and the interpolating flag clears. -/
theorem applied_coeffs_snap (inputs : ℕ → ℝ) (st0 : FilterProcessor)
    (k : ℕ) (hsec : st0.sections.length = k) (hold : st0.oldCoeffs.length = k)
    (hnew : st0.newCoeffs.length = k) (hpos : st0.interpPos = 0)
    (hint : st0.interpolating = true) :
    (interpUpdate (runFrom inputs st0 255)).sections.map coeffsOfSection =
        st0.newCoeffs ∧
      (interpUpdate (runFrom inputs st0 255)).interpolating = false := by
  obtain ⟨h1, h2, h3, h4, h5⟩ :=
    runFrom_interp_invariant inputs st0 k hsec hold hnew hpos hint 255 le_rfl
  rw [interpUpdate_snap _ h1 (by rw [h2, interpFrames])]
  refine ⟨?_, rfl⟩
  show (List.zipWith snapCoeffs
      (zipWith3 _ (runFrom inputs st0 255).sections
        (runFrom inputs st0 255).oldCoeffs (runFrom inputs st0 255).newCoeffs)
      (runFrom inputs st0 255).newCoeffs).map coeffsOfSection = st0.newCoeffs
  rw [zipWith_snapCoeffs_coeffs _ _ (by
    rw [zipWith3_length _ _ _ _ (by rw [h5, h3, hold]) (by rw [h3, hold, h4, hnew]),
      h5, h4, hnew]), h4]

set_option maxRecDepth 4096 in
/-- After exactly 256 samples the active coefficients are bit-for-bit the
target set and interpolation has ended. -/
theorem runFrom_256_coeffs (inputs : ℕ → ℝ) (st0 : FilterProcessor)
    (k : ℕ) (hsec : st0.sections.length = k) (hold : st0.oldCoeffs.length = k)
    (hnew : st0.newCoeffs.length = k) (hpos : st0.interpPos = 0)
    (hint : st0.interpolating = true) :
    (runFrom inputs st0 256).sections.map coeffsOfSection = st0.newCoeffs ∧
      (runFrom inputs st0 256).interpolating = false := by
  obtain ⟨ha, hb⟩ :=
    applied_coeffs_snap inputs st0 k hsec hold hnew hpos hint
  rw [show (256 : ℕ) = 255 + 1 from rfl, runFrom, processSample_fst]
  constructor
  · show (cascadeRun (interpUpdate (runFrom inputs st0 255)).sections
      (inputs 255)).1.map coeffsOfSection = st0.newCoeffs
    rw [cascadeRun_coeffs, ha]
  · exact hb

/-! Claim theorems. -/

/-- C1: for every filter specification with one of the three families, order
at least 1, positive ripple, and a cutoff frequency clamped into
`(0, 0.95 * Nyquist]` (with a positive sample rate), every digital pole in
the `DesignResult` returned by `designFilter` has magnitude strictly less
than 1. -/
theorem C1_designFilter_poles_stable (params : FilterParams) (fs : ℝ)
    (n : ℕ) (hfs : 0 < fs) (hvalid : params.Valid fs) :
    (designFilter params fs n).poles.Forall
      (fun z => Real.sqrt (z.re ^ 2 + z.im ^ 2) < 1) := by
  rw [List.forall_iff_forall_mem]
  intro z hz
  rw [designFilter_poles] at hz
  have hneg := getAnalogPoles_re_neg params (fun _ => hvalid.2.1)
  have hwarp := prewarp_pos params.cutoffFrequency fs hfs hvalid.cutoff_pos
    (hvalid.cutoff_lt hfs)
  have hmag := buildSOS_poles_stable params fs _ hfs hwarp hneg z hz
  have h0 : (0 : ℝ) ≤ z.re ^ 2 + z.im ^ 2 := by positivity
  calc Real.sqrt (z.re ^ 2 + z.im ^ 2) < Real.sqrt 1 :=
        (Real.sqrt_lt_sqrt h0 (by simpa using hmag))
    _ = 1 := Real.sqrt_one

/-- Witness for C1: a first-order Butterworth lowpass at 1 Hz cutoff with a
4 Hz sample rate satisfies the hypotheses. -/
theorem C1_witness :
    (0 < (4 : ℝ) ∧ FilterParams.Valid
      ⟨FilterFamily.butterworth, ResponseType.lowpass, 1, 1, 1⟩ 4) ∧
    (designFilter ⟨FilterFamily.butterworth, ResponseType.lowpass, 1, 1, 1⟩
      4 8).poles.Forall (fun z => Real.sqrt (z.re ^ 2 + z.im ^ 2) < 1) :=
  ⟨⟨by norm_num, by constructor <;> norm_num [FilterParams.Valid]⟩,
    C1_designFilter_poles_stable _ 4 8 (by norm_num)
      (by constructor <;> norm_num [FilterParams.Valid])⟩

/-- C3: the code evaluated at the failing input. For an order outside the
table (here 9), `besselPoles` returns the raw order-2 table entry without
the `1 / omega3dB` scaling, which differs from `besselPoles 2` (the scaled
order-2 poles with the -3 dB point at omega = 1), contradicting the
documented normalization of all analog prototypes. -/
theorem C3_bessel_fallback_unscaled :
    besselPoles 9 = [⟨-1.1016, 0.6368⟩, ⟨-1.1016, -0.6368⟩] ∧
    besselPoles 2 = [⟨-1.1016 / 1.3617, 0.6368 / 1.3617⟩,
      ⟨-1.1016 / 1.3617, -0.6368 / 1.3617⟩] ∧
    besselPoles 9 ≠ besselPoles 2 := by
  refine ⟨rfl, rfl, ?_⟩
  intro h
  rw [show besselPoles 9 = [⟨-1.1016, 0.6368⟩, ⟨-1.1016, -0.6368⟩] from rfl,
    show besselPoles 2 = [⟨-1.1016 / 1.3617, 0.6368 / 1.3617⟩,
      ⟨-1.1016 / 1.3617, -0.6368 / 1.3617⟩] from rfl] at h
  simp only [List.cons.injEq, Complex.mk.injEq] at h
  have hre := h.1.1
  norm_num at hre

/-- C4 counterexample: `besselPoles 9` returns 2 poles, not 9, so the claim
that the generator returns exactly N poles for every order N at least 1 and
all three families fails at the Bessel family with N = 9. -/
theorem C4_counterexample : ¬((besselPoles 9).length = 9) := by
  rw [besselPoles_length_fallback 9 (Or.inr (by norm_num))]
  norm_num

/-- C4 (amended): for every order N at least 1 and positive ripple, the
Butterworth and Chebyshev generators return exactly N poles; the Bessel
generator returns exactly N poles for N in 1..8 and the 2 fallback poles
otherwise; in every case all returned poles have strictly negative real
part. -/
theorem C4_prototypes_amended (N : ℕ) (r : ℝ) (hN : 1 ≤ N) (hr : 0 < r) :
    (butterworthPoles N).length = N ∧
    (chebyshevPoles N r).poles.length = N ∧
    (N ≤ 8 → (besselPoles N).length = N) ∧
    (9 ≤ N → (besselPoles N).length = 2) ∧
    (butterworthPoles N).Forall (fun p => p.re < 0) ∧
    (chebyshevPoles N r).poles.Forall (fun p => p.re < 0) ∧
    (besselPoles N).Forall (fun p => p.re < 0) := by
  refine ⟨butterworthPoles_length N, chebyshevPoles_length N r,
    fun h8 => besselPoles_length_table N hN h8,
    fun h9 => besselPoles_length_fallback N (Or.inr h9), ?_, ?_, ?_⟩
  · rw [List.forall_iff_forall_mem]
    exact butterworthPoles_re_neg N
  · rw [List.forall_iff_forall_mem]
    exact chebyshevPoles_re_neg N r hr
  · rw [List.forall_iff_forall_mem]
    exact besselPoles_re_neg N

/-- Witness for C4 (amended) at N = 2, ripple 1 dB. -/
theorem C4_witness :
    (1 ≤ 2 ∧ (0 : ℝ) < 1) ∧
    ((butterworthPoles 2).length = 2 ∧
    (chebyshevPoles 2 1).poles.length = 2 ∧
    (2 ≤ 8 → (besselPoles 2).length = 2) ∧
    (9 ≤ 2 → (besselPoles 2).length = 2) ∧
    (butterworthPoles 2).Forall (fun p => p.re < 0) ∧
    (chebyshevPoles 2 1).poles.Forall (fun p => p.re < 0) ∧
    (besselPoles 2).Forall (fun p => p.re < 0)) :=
  ⟨⟨by norm_num, by norm_num⟩, C4_prototypes_amended 2 1 (by norm_num) (by norm_num)⟩

/-- C5: for every valid specification, every SOS section produced by
`designFilter` has its normalized transfer function
`(b0 + b1 z^(-1) + b2 z^(-2)) / (1 + a1 z^(-1) + a2 z^(-2))` evaluate to
exactly 1 at `z = 1` for lowpass and at `z = -1` for highpass. -/
theorem C5_gain_normalization (params : FilterParams) (fs : ℝ) (n : ℕ)
    (hfs : 0 < fs) (hvalid : params.Valid fs) :
    (designFilter params fs n).sos.Forall (fun s =>
      sosEvalAtReal s
        (if params.type = ResponseType.lowpass then 1 else -1) = 1) := by
  rw [List.forall_iff_forall_mem]
  intro s hs
  rw [designFilter_sos] at hs
  have hneg := getAnalogPoles_re_neg params (fun _ => hvalid.2.1)
  have hwarp := prewarp_pos params.cutoffFrequency fs hfs hvalid.cutoff_pos
    (hvalid.cutoff_lt hfs)
  exact buildSOS_gain_norm params fs _ hfs hwarp hneg s hs

/-- Witness for C5: a second-order Butterworth highpass. -/
theorem C5_witness :
    (0 < (4 : ℝ) ∧ FilterParams.Valid
      ⟨FilterFamily.butterworth, ResponseType.highpass, 2, 1, 1⟩ 4) ∧
    (designFilter ⟨FilterFamily.butterworth, ResponseType.highpass, 2, 1, 1⟩
      4 8).sos.Forall (fun s => sosEvalAtReal s
        (if (⟨FilterFamily.butterworth, ResponseType.highpass, 2, 1, 1⟩
          : FilterParams).type = ResponseType.lowpass then 1 else -1) = 1) :=
  ⟨⟨by norm_num, by constructor <;> norm_num [FilterParams.Valid]⟩,
    C5_gain_normalization _ 4 8 (by norm_num)
      (by constructor <;> norm_num [FilterParams.Valid])⟩

/-- C10: `pairConjugatePoles` conserves poles — the total number of poles
across all returned sections equals the length of the input list, so no
pole is dropped or used twice. -/
theorem C10_pairing_conserves_poles (ps : List Complex) :
    (((pairConjugatePoles ps).map fun sec => sec.poles.length).sum)
      = ps.length :=
  pairConjugatePoles_count ps.length ps le_rfl

/-- C2 (amended): after a same-count coefficient update latching old set O
and target set T, the coefficients applied to sample `t` are exactly
`O + (t/256) * (T - O)` for `t = 0 .. 254` (so exactly O at sample 0); at
sample 255, the 256th interpolation sample, the snap to T happens before
the cascade, so the applied coefficients are exactly T and the
interpolating flag clears; after 256 samples the active coefficients equal
T exactly and the processor is no longer interpolating. -/
theorem C2_interpolation_amended (st : FilterProcessor)
    (msg : List SOSSection) (inputs : ℕ → ℝ)
    (hk : 1 ≤ st.sections.length)
    (hlen : msg.length = st.sections.length) :
    (∀ t : ℕ, t ≤ 254 →
      (interpUpdate (runFrom inputs (updateCoefficients msg st) t)).sections.map
          coeffsOfSection =
        List.zipWith (lerpCoeffs ((t : ℝ) / 256))
          (st.sections.map coeffsOfSection) (msg.map coeffsOfSOS)) ∧
    (interpUpdate (runFrom inputs (updateCoefficients msg st) 0)).sections.map
        coeffsOfSection = st.sections.map coeffsOfSection ∧
    ((interpUpdate (runFrom inputs (updateCoefficients msg st) 255)).sections.map
        coeffsOfSection = msg.map coeffsOfSOS ∧
      (interpUpdate (runFrom inputs (updateCoefficients msg st) 255)).interpolating
        = false) ∧
    ((runFrom inputs (updateCoefficients msg st) 256).sections.map coeffsOfSection
        = msg.map coeffsOfSOS ∧
      (runFrom inputs (updateCoefficients msg st) 256).interpolating = false) := by
  rw [updateCoefficients_same msg st hlen]
  refine ⟨?_, ?_, ?_, ?_⟩
  · intro t ht
    exact applied_coeffs_mid inputs
      ⟨st.sections, st.sections.map coeffsOfSection, msg.map coeffsOfSOS, 0, true⟩
      st.sections.length rfl (by simp) (by simp [hlen]) rfl rfl t ht
  · have h0 := applied_coeffs_mid inputs
      ⟨st.sections, st.sections.map coeffsOfSection, msg.map coeffsOfSOS, 0, true⟩
      st.sections.length rfl (by simp) (by simp [hlen]) rfl rfl 0 (by norm_num)
    rw [h0, Nat.cast_zero, zero_div]
    exact zipWith_lerpCoeffs_zero _ _ (by simp [hlen])
  · exact applied_coeffs_snap inputs
      ⟨st.sections, st.sections.map coeffsOfSection, msg.map coeffsOfSOS, 0, true⟩
      st.sections.length rfl (by simp) (by simp [hlen]) rfl rfl
  · exact runFrom_256_coeffs inputs
      ⟨st.sections, st.sections.map coeffsOfSection, msg.map coeffsOfSOS, 0, true⟩
      st.sections.length rfl (by simp) (by simp [hlen]) rfl rfl

/-- C2 counterexample: with one section, old coefficients all zero and
target `b0 = 1`, the coefficients applied at interpolation sample 255 are
the target (b0 = 1), not `O + (255/256) * (T - O)` (b0 = 255/256) as the
claim states for every `t < 256`. -/
theorem C2_counterexample :
    (interpUpdate (runFrom (fun _ => 0)
        (updateCoefficients [⟨1, 0, 0, 1, 0, 0⟩]
          ⟨[⟨0, 0, 0, 0, 0, 0, 0, 0, 0⟩], [], [], 0, false⟩) 255)).sections.map
      coeffsOfSection ≠
      [lerpCoeffs ((255 : ℝ) / 256) ⟨0, 0, 0, 0, 0⟩ ⟨1, 0, 0, 0, 0⟩] := by
  have hupd : updateCoefficients [⟨1, 0, 0, 1, 0, 0⟩]
      ⟨[⟨0, 0, 0, 0, 0, 0, 0, 0, 0⟩], [], [], 0, false⟩ =
      ⟨[⟨0, 0, 0, 0, 0, 0, 0, 0, 0⟩], [⟨0, 0, 0, 0, 0⟩],
        [⟨1, 0, 0, 0, 0⟩], 0, true⟩ := by
    rw [updateCoefficients_same _ _ rfl]
    rfl
  rw [hupd]
  obtain ⟨ha, hb⟩ := applied_coeffs_snap (fun _ => 0)
    ⟨[⟨0, 0, 0, 0, 0, 0, 0, 0, 0⟩], [⟨0, 0, 0, 0, 0⟩], [⟨1, 0, 0, 0, 0⟩],
      0, true⟩ 1 rfl rfl rfl rfl rfl
  rw [ha]
  intro h
  simp only [List.cons.injEq, and_true, lerpCoeffs, Coeffs.mk.injEq] at h
  have hb0 := h.1
  norm_num at hb0

/-- Witness for C2 (amended) with one section, zero old coefficients and a
unit target. -/
theorem C2_witness :
    (1 ≤ ([⟨0, 0, 0, 0, 0, 0, 0, 0, 0⟩] : List SectionState).length ∧
      ([⟨1, 0, 0, 1, 0, 0⟩] : List SOSSection).length =
        ([⟨0, 0, 0, 0, 0, 0, 0, 0, 0⟩] : List SectionState).length) ∧
    ((∀ t : ℕ, t ≤ 254 →
      (interpUpdate (runFrom (fun _ => 0) (updateCoefficients
          [⟨1, 0, 0, 1, 0, 0⟩]
          ⟨[⟨0, 0, 0, 0, 0, 0, 0, 0, 0⟩], [], [], 0, false⟩) t)).sections.map
          coeffsOfSection =
        List.zipWith (lerpCoeffs ((t : ℝ) / 256))
          (([⟨0, 0, 0, 0, 0, 0, 0, 0, 0⟩] : List SectionState).map coeffsOfSection)
          (([⟨1, 0, 0, 1, 0, 0⟩] : List SOSSection).map coeffsOfSOS)) ∧
    (interpUpdate (runFrom (fun _ => 0) (updateCoefficients
        [⟨1, 0, 0, 1, 0, 0⟩]
        ⟨[⟨0, 0, 0, 0, 0, 0, 0, 0, 0⟩], [], [], 0, false⟩) 0)).sections.map
        coeffsOfSection =
      ([⟨0, 0, 0, 0, 0, 0, 0, 0, 0⟩] : List SectionState).map coeffsOfSection ∧
    ((interpUpdate (runFrom (fun _ => 0) (updateCoefficients
        [⟨1, 0, 0, 1, 0, 0⟩]
        ⟨[⟨0, 0, 0, 0, 0, 0, 0, 0, 0⟩], [], [], 0, false⟩) 255)).sections.map
        coeffsOfSection =
      ([⟨1, 0, 0, 1, 0, 0⟩] : List SOSSection).map coeffsOfSOS ∧
      (interpUpdate (runFrom (fun _ => 0) (updateCoefficients
        [⟨1, 0, 0, 1, 0, 0⟩]
        ⟨[⟨0, 0, 0, 0, 0, 0, 0, 0, 0⟩], [], [], 0, false⟩) 255)).interpolating
        = false) ∧
    ((runFrom (fun _ => 0) (updateCoefficients [⟨1, 0, 0, 1, 0, 0⟩]
        ⟨[⟨0, 0, 0, 0, 0, 0, 0, 0, 0⟩], [], [], 0, false⟩) 256).sections.map
        coeffsOfSection =
      ([⟨1, 0, 0, 1, 0, 0⟩] : List SOSSection).map coeffsOfSOS ∧
      (runFrom (fun _ => 0) (updateCoefficients [⟨1, 0, 0, 1, 0, 0⟩]
        ⟨[⟨0, 0, 0, 0, 0, 0, 0, 0, 0⟩], [], [], 0, false⟩) 256).interpolating
        = false)) :=
  ⟨⟨by norm_num, rfl⟩,
    C2_interpolation_amended ⟨[⟨0, 0, 0, 0, 0, 0, 0, 0, 0⟩], [], [], 0, false⟩
      [⟨1, 0, 0, 1, 0, 0⟩] (fun _ => 0) (by norm_num) rfl⟩

/-- C6 (amended): the frequency grid of `evalSOS` is `f_i =
(i / numPoints) * Nyquist`: it starts at exactly 0, is uniformly spaced
with step `Nyquist / numPoints`, and its last point is
`((numPoints - 1) / numPoints) * Nyquist`, strictly below Nyquist — the
grid never reaches `sampleRate / 2`. -/
theorem C6_frequency_grid_amended (sos : List SOSSection) (fs : ℝ) (n : ℕ)
    (hn : 1 ≤ n) (hfs : 0 < fs) :
    (evalSOS sos fs n).frequencies.length = n ∧
    (evalSOS sos fs n).frequencies.getD 0 0 = 0 ∧
    (∀ i : ℕ, i + 1 < n →
      (evalSOS sos fs n).frequencies.getD (i + 1) 0 -
        (evalSOS sos fs n).frequencies.getD i 0 = (fs / 2) / n) ∧
    (evalSOS sos fs n).frequencies.getD (n - 1) 0 =
      (((n : ℝ) - 1) / n) * (fs / 2) ∧
    (evalSOS sos fs n).frequencies.getD (n - 1) 0 < fs / 2 := by
  have hn0 : (n : ℝ) ≠ 0 := by
    have : (0 : ℝ) < n := by exact_mod_cast hn
    linarith
  have hnpos : (0 : ℝ) < n := by exact_mod_cast hn
  have hlast : (evalSOS sos fs n).frequencies.getD (n - 1) 0 =
      (((n : ℝ) - 1) / n) * (fs / 2) := by
    rw [evalSOS_frequencies_getD sos fs n (n - 1) (by omega)]
    rw [Nat.cast_sub hn, Nat.cast_one]
  refine ⟨evalSOS_frequencies_length sos fs n, ?_, ?_, hlast, ?_⟩
  · rw [evalSOS_frequencies_getD sos fs n 0 (by omega)]
    norm_num
  · intro i hi
    rw [evalSOS_frequencies_getD sos fs n (i + 1) hi,
      evalSOS_frequencies_getD sos fs n i (by omega)]
    push_cast
    field_simp
    ring
  · rw [hlast]
    have h1 : ((n : ℝ) - 1) / n < 1 := by
      rw [div_lt_one hnpos]
      linarith
    have h2 : (0 : ℝ) < fs / 2 := by linarith
    calc (((n : ℝ) - 1) / n) * (fs / 2) < 1 * (fs / 2) :=
          mul_lt_mul_of_pos_right h1 h2
      _ = fs / 2 := one_mul _

/-- C6 counterexample: with `numPoints = 2` and `sampleRate = 2`, the last
grid frequency is `1/2`, not Nyquist (`2/2 = 1`) as the claim states. -/
theorem C6_counterexample :
    (evalSOS [] 2 2).frequencies.getD 1 0 ≠ (2 : ℝ) / 2 := by
  rw [evalSOS_frequencies_getD [] 2 2 1 (by norm_num)]
  norm_num

/-- Witness for C6 (amended) on a 4-point grid at 2 Hz. -/
theorem C6_witness :
    ((1 ≤ 4) ∧ (0 : ℝ) < 2) ∧
    ((evalSOS [] 2 4).frequencies.length = 4 ∧
    (evalSOS [] 2 4).frequencies.getD 0 0 = 0 ∧
    (∀ i : ℕ, i + 1 < 4 →
      (evalSOS [] 2 4).frequencies.getD (i + 1) 0 -
        (evalSOS [] 2 4).frequencies.getD i 0 = ((2 : ℝ) / 2) / 4) ∧
    (evalSOS [] 2 4).frequencies.getD (4 - 1) 0 =
      (((4 : ℕ) : ℝ) - 1) / 4 * ((2 : ℝ) / 2) ∧
    (evalSOS [] 2 4).frequencies.getD (4 - 1) 0 < (2 : ℝ) / 2) :=
  ⟨⟨by norm_num, by norm_num⟩,
    C6_frequency_grid_amended [] 2 4 (by norm_num) (by norm_num)⟩

/-- C7: a coefficient update whose section count differs from the current
one reinitializes the cascade: the sections hold exactly the incoming
coefficients, all delay memory is zeroed, and no interpolation is in
progress. -/
theorem C7_reset_on_topology_change (st : FilterProcessor)
    (msg : List SOSSection) (hlen : msg.length ≠ st.sections.length) :
    (updateCoefficients msg st).sections.map coeffsOfSection =
        msg.map coeffsOfSOS ∧
    (updateCoefficients msg st).sections.Forall
      (fun s => s.x1 = 0 ∧ s.x2 = 0 ∧ s.y1 = 0 ∧ s.y2 = 0) ∧
    (updateCoefficients msg st).interpolating = false := by
  rw [updateCoefficients_diff msg st hlen]
  refine ⟨?_, ?_, rfl⟩
  · show ((msg.map coeffsOfSOS).map freshSection).map coeffsOfSection =
      msg.map coeffsOfSOS
    rw [List.map_map]
    have hid : coeffsOfSection ∘ freshSection = id := by
      funext c
      cases c
      rfl
    rw [hid, List.map_id]
  · show ((msg.map coeffsOfSOS).map freshSection).Forall
      (fun s => s.x1 = 0 ∧ s.x2 = 0 ∧ s.y1 = 0 ∧ s.y2 = 0)
    rw [List.forall_iff_forall_mem]
    intro s hs
    obtain ⟨c, hc, rfl⟩ := List.mem_map.mp hs
    exact ⟨rfl, rfl, rfl, rfl⟩

/-- Witness for C7: one incoming section against an empty cascade. -/
theorem C7_witness :
    (([⟨1, 0, 0, 1, 0, 0⟩] : List SOSSection).length ≠
      (⟨[], [], [], 0, false⟩ : FilterProcessor).sections.length) ∧
    ((updateCoefficients [⟨1, 0, 0, 1, 0, 0⟩]
        ⟨[], [], [], 0, false⟩).sections.map coeffsOfSection =
      ([⟨1, 0, 0, 1, 0, 0⟩] : List SOSSection).map coeffsOfSOS ∧
    (updateCoefficients [⟨1, 0, 0, 1, 0, 0⟩]
        ⟨[], [], [], 0, false⟩).sections.Forall
      (fun s => s.x1 = 0 ∧ s.x2 = 0 ∧ s.y1 = 0 ∧ s.y2 = 0) ∧
    (updateCoefficients [⟨1, 0, 0, 1, 0, 0⟩]
        ⟨[], [], [], 0, false⟩).interpolating = false) :=
  ⟨by norm_num, C7_reset_on_topology_change ⟨[], [], [], 0, false⟩
    [⟨1, 0, 0, 1, 0, 0⟩] (by norm_num)⟩

/-- C8 (amended): `designFilter` always returns as many zeros as poles,
namely one per analog prototype pole; that common count equals the order
for Butterworth and Chebyshev at every order and for Bessel at orders
1..8, but equals 2 (the fallback table entry) for Bessel orders outside
1..8; every zero lies at exactly `(-1, 0)` for lowpass and `(+1, 0)` for
highpass. -/
theorem C8_pole_zero_counts_amended (params : FilterParams) (fs : ℝ)
    (n : ℕ) :
    (designFilter params fs n).zeros.length =
        (designFilter params fs n).poles.length ∧
    (designFilter params fs n).poles.length = (getAnalogPoles params).length ∧
    ((params.family ≠ FilterFamily.bessel ∨
        (1 ≤ params.order ∧ params.order ≤ 8)) →
      (getAnalogPoles params).length = params.order) ∧
    ((params.family = FilterFamily.bessel ∧
        (params.order = 0 ∨ 9 ≤ params.order)) →
      (getAnalogPoles params).length = 2) ∧
    (designFilter params fs n).zeros.Forall (fun w =>
      w = ⟨(if params.type = ResponseType.lowpass then -1 else 1 : ℝ), 0⟩) := by
  refine ⟨?_, ?_, ?_, ?_, ?_⟩
  · rw [designFilter_zeros, designFilter_poles, buildSOS_zeros_length,
      buildSOS_poles_length]
  · rw [designFilter_poles, buildSOS_poles_length]
  · intro hcase
    rw [getAnalogPoles]
    cases hfam : params.family with
    | butterworth => exact butterworthPoles_length params.order
    | chebyshev => exact chebyshevPoles_length params.order params.rippleDb
    | bessel =>
      rcases hcase with hne | ⟨h1, h8⟩
      · exact absurd hfam hne
      · exact besselPoles_length_table params.order h1 h8
  · rintro ⟨hfam, hout⟩
    rw [getAnalogPoles, hfam]
    exact besselPoles_length_fallback params.order hout
  · rw [List.forall_iff_forall_mem]
    intro w hw
    rw [designFilter_zeros] at hw
    exact buildSOS_zeros_loc params fs _ w hw

/-- C8 counterexample: a Bessel order-9 design yields 2 poles, not
`order = 9` of them, refuting `poles.length = order` for every valid
spec. -/
theorem C8_counterexample :
    (designFilter ⟨FilterFamily.bessel, ResponseType.lowpass, 9, 1, 1⟩
      4 1).poles.length ≠ 9 := by
  rw [designFilter_poles, buildSOS_poles_length]
  show (getAnalogPoles _).length ≠ 9
  rw [getAnalogPoles]
  show (besselPoles 9).length ≠ 9
  rw [besselPoles_length_fallback 9 (Or.inr (by norm_num))]
  norm_num

/-- Witness for C8 (amended): the Bessel order-9 design has equal pole and
zero counts, and its analog prototype count is the 2-pole fallback. -/
theorem C8_witness :
    ((designFilter ⟨FilterFamily.bessel, ResponseType.lowpass, 9, 1, 1⟩
        4 1).zeros.length =
      (designFilter ⟨FilterFamily.bessel, ResponseType.lowpass, 9, 1, 1⟩
        4 1).poles.length) ∧
    (getAnalogPoles ⟨FilterFamily.bessel, ResponseType.lowpass, 9, 1, 1⟩).length
      = 2 :=
  ⟨(C8_pole_zero_counts_amended
      ⟨FilterFamily.bessel, ResponseType.lowpass, 9, 1, 1⟩ 4 1).1,
    (C8_pole_zero_counts_amended
      ⟨FilterFamily.bessel, ResponseType.lowpass, 9, 1, 1⟩ 4 1).2.2.2.1
      ⟨rfl, Or.inr (by norm_num)⟩⟩

/-- C9: a coefficient update whose section count equals the current one
leaves the section array (coefficients and delay memory) untouched; it
only latches the old and new coefficient sets, resets the interpolation
position to 0, and raises the interpolating flag. -/
theorem C9_update_same_count_preserves_sections (st : FilterProcessor)
    (msg : List SOSSection) (hlen : msg.length = st.sections.length) :
    (updateCoefficients msg st).sections = st.sections ∧
    (updateCoefficients msg st).oldCoeffs = st.sections.map coeffsOfSection ∧
    (updateCoefficients msg st).newCoeffs = msg.map coeffsOfSOS ∧
    (updateCoefficients msg st).interpPos = 0 ∧
    (updateCoefficients msg st).interpolating = true := by
  rw [updateCoefficients_same msg st hlen]
  exact ⟨rfl, rfl, rfl, rfl, rfl⟩

/-- Witness for C9: one incoming section against a one-section cascade with
nonzero delay memory. -/
theorem C9_witness :
    (([⟨1, 0, 0, 1, 0, 0⟩] : List SOSSection).length =
      (⟨[⟨2, 3, 4, 5, 6, 7, 8, 9, 10⟩], [], [], 5, false⟩
        : FilterProcessor).sections.length) ∧
    ((updateCoefficients [⟨1, 0, 0, 1, 0, 0⟩]
        ⟨[⟨2, 3, 4, 5, 6, 7, 8, 9, 10⟩], [], [], 5, false⟩).sections =
      [⟨2, 3, 4, 5, 6, 7, 8, 9, 10⟩] ∧
    (updateCoefficients [⟨1, 0, 0, 1, 0, 0⟩]
        ⟨[⟨2, 3, 4, 5, 6, 7, 8, 9, 10⟩], [], [], 5, false⟩).oldCoeffs =
      ([⟨2, 3, 4, 5, 6, 7, 8, 9, 10⟩] : List SectionState).map coeffsOfSection ∧
    (updateCoefficients [⟨1, 0, 0, 1, 0, 0⟩]
        ⟨[⟨2, 3, 4, 5, 6, 7, 8, 9, 10⟩], [], [], 5, false⟩).newCoeffs =
      ([⟨1, 0, 0, 1, 0, 0⟩] : List SOSSection).map coeffsOfSOS ∧
    (updateCoefficients [⟨1, 0, 0, 1, 0, 0⟩]
        ⟨[⟨2, 3, 4, 5, 6, 7, 8, 9, 10⟩], [], [], 5, false⟩).interpPos = 0 ∧
    (updateCoefficients [⟨1, 0, 0, 1, 0, 0⟩]
        ⟨[⟨2, 3, 4, 5, 6, 7, 8, 9, 10⟩], [], [], 5, false⟩).interpolating
      = true) :=
  ⟨rfl, C9_update_same_count_preserves_sections
    ⟨[⟨2, 3, 4, 5, 6, 7, 8, 9, 10⟩], [], [], 5, false⟩
    [⟨1, 0, 0, 1, 0, 0⟩] rfl⟩

end SignalFilter
